import Mathlib

/-!
Verification of the archiwiki chunk-extraction and retrieval engine.

This file gives a shallow embedding of the core of the repository:

* src/ast-chunker.ts — the AST/pattern based chunk extractor
  (chunkFile dispatch, the TypeScript structural path via a model of the
  external TypeScript compiler front end, the Python/C#/Go/generic pattern
  paths, the domain-hint classifier, and the small-chunk merger), and
* src/rag/index.ts — the RAG system (line-based chunkFile, the fallback
  bag-of-words embedding, vector normalization, index build/persist/reload
  and search),
* the analyze_code_structure tool handler (its path resolution and read).

Modelling conventions:
* JavaScript strings are modelled by Lean String values; all string
  operations (toLowerCase, includes, split, trim, ...) are re-implemented
  on the underlying character lists so that they compute by kernel
  reduction.  JS string semantics are ASCII-faithful here (the inputs the
  claims touch are ASCII; .length counts code points rather than UTF-16
  units, identical on ASCII).
* JS numbers used as integers (line numbers, sizes, scores, hash values)
  are modelled as Nat / Int with explicit 32-bit wrapping where the source
  relies on it (simpleHash).  The confidence values score/10 are modelled
  as exact rationals; division and Math.min are written with mkRat and an
  explicit if-then-else so that they reduce.
* Embedding vectors after L2 normalization contain square roots, so the
  normalized vectors live in List ℝ while the raw term-frequency vectors
  (exact naturals) stay computable.
* JS Array.prototype.sort with comparator (a, b) => b.x - a.x is a stable
  descending sort; it is modelled by List.insertionSort with the relation
  (fun a b => x b ≤ x a), which is stable in the same sense.
* External libraries are modelled at their interface: the TypeScript
  compiler parse is an input tree (TsNode) carrying exactly the data the
  repository code queries from it; faiss-node IndexFlatIP is an exact
  inner-product top-k search over the stored vector list, and its
  write_index/read_index pair is modelled as storing and returning the
  vector list; the file system is a partial map from paths to contents.
* Fields of ASTChunk that no control flow and no claim reads (signature,
  typeInfo, exports) are omitted from the embedding.
-/

set_option maxRecDepth 100000

namespace Archiwiki

/-! ## JS string primitives (character-list based, so they reduce) -/

/-- JS whitespace test, restricted to the ASCII whitespace characters. -/
def jsWS (c : Char) : Bool :=
  c = ' ' || c = '\t' || c = '\n' || c = '\r' || c = '\x0b' || c = '\x0c'

/-- A word character in JS regexes: [A-Za-z0-9_]. -/
def wordChar (c : Char) : Bool :=
  ('a' ≤ c && c ≤ 'z') || ('A' ≤ c && c ≤ 'Z') || ('0' ≤ c && c ≤ '9') || c = '_'

/-- ASCII lower-casing of one character (JS String.prototype.toLowerCase). -/
def lowerChar (c : Char) : Char :=
  if 'A' ≤ c && c ≤ 'Z' then Char.ofNat (c.toNat + 32) else c

/-- ASCII upper-casing of one character (JS String.prototype.toUpperCase). -/
def upperChar (c : Char) : Char :=
  if 'a' ≤ c && c ≤ 'z' then Char.ofNat (c.toNat - 32) else c

/-- JS s.toLowerCase(). -/
def jsLower (s : String) : String := ⟨s.data.map lowerChar⟩

/-- JS s.toUpperCase(). -/
def jsUpper (s : String) : String := ⟨s.data.map upperChar⟩

/-- JS s.length (code points; equal to UTF-16 length on ASCII). -/
def strLen (s : String) : Nat := s.data.length

/-- Does the pattern occur as a prefix of the character list? -/
def charsStartWith : List Char → List Char → Bool
  | _, [] => true
  | [], _ :: _ => false
  | c :: cs, p :: ps => c = p && charsStartWith cs ps

/-- Does the pattern occur at some position of the haystack? -/
def containsFrom : List Char → List Char → Bool
  | [], pat => charsStartWith [] pat
  | c :: cs, pat => charsStartWith (c :: cs) pat || containsFrom cs pat

/-- JS s.includes(sub). -/
def containsSub (s sub : String) : Bool := containsFrom s.data sub.data

/-- JS s.startsWith(p). -/
def jsStartsWith (s p : String) : Bool := charsStartWith s.data p.data

/-- JS s.endsWith(p). -/
def jsEndsWith (s p : String) : Bool := charsStartWith s.data.reverse p.data.reverse

/-- JS s.trim() (ASCII whitespace). -/
def jsTrim (s : String) : String :=
  ⟨((s.data.dropWhile (fun c => jsWS c)).reverse.dropWhile (fun c => jsWS c)).reverse⟩

/-- JS s.trimStart() (ASCII whitespace). -/
def jsTrimStart (s : String) : String := ⟨s.data.dropWhile (fun c => jsWS c)⟩

/-- JS s.split(c) on the character level. -/
def splitCharsOn (sep : Char) : List Char → List (List Char)
  | [] => [[]]
  | c :: cs =>
      if c = sep then [] :: splitCharsOn sep cs
      else
        match splitCharsOn sep cs with
        | [] => [[c]]
        | l :: ls => (c :: l) :: ls

/-- JS content.split(s) for a one-character separator s. -/
def jsSplitOn (sep : Char) (s : String) : List String :=
  (splitCharsOn sep s.data).map (fun l => ⟨l⟩)

/-- JS content.split(newline): the list of lines of a file. -/
def jsLines (s : String) : List String := jsSplitOn '\n' s

/-- Join character lists with a separator (JS Array.prototype.join). -/
def joinCharsSep (sep : List Char) : List (List Char) → List Char
  | [] => []
  | [l] => l
  | l :: l2 :: ls => l ++ sep ++ joinCharsSep sep (l2 :: ls)

/-- JS parts.join(sep). -/
def joinWith (sep : String) (parts : List String) : String :=
  ⟨joinCharsSep sep.data (parts.map String.data)⟩

/-- JS list.slice(a, b) for 0 ≤ a ≤ b (the only uses in the sources). -/
def jsSlice {α : Type} (l : List α) (a b : Nat) : List α := (l.drop a).take (b - a)

theorem splitCharsOn_ne_nil (sep : Char) (cs : List Char) : splitCharsOn sep cs ≠ [] := by
  induction cs with
  | nil => simp [splitCharsOn]
  | cons c cs ih =>
      by_cases h : c = sep
      · simp [splitCharsOn, h]
      · simp only [splitCharsOn, h, if_false]
        cases hs : splitCharsOn sep cs with
        | nil => simp
        | cons l ls => simp

/-- Splitting on a separator and re-joining with it is the identity. -/
theorem joinCharsSep_splitCharsOn (sep : Char) (cs : List Char) :
    joinCharsSep [sep] (splitCharsOn sep cs) = cs := by
  induction cs with
  | nil => rfl
  | cons c cs ih =>
      by_cases h : c = sep
      · subst h
        simp only [splitCharsOn, if_pos rfl]
        cases hs : splitCharsOn c cs with
        | nil => exact absurd hs (splitCharsOn_ne_nil c cs)
        | cons l ls =>
            rw [hs] at ih
            simpa [joinCharsSep] using ih
      · simp only [splitCharsOn, h, if_false]
        cases hs : splitCharsOn sep cs with
        | nil => exact absurd hs (splitCharsOn_ne_nil sep cs)
        | cons l ls =>
            rw [hs] at ih
            cases ls with
            | nil => simpa [joinCharsSep] using ih
            | cons l2 ls2 => simpa [joinCharsSep] using ih

/-- Joining the split lines of a string gives back the string. -/
theorem joinWith_jsLines (s : String) : joinWith "\n" (jsLines s) = s := by
  cases s with
  | mk data =>
      simp only [joinWith, jsLines, jsSplitOn, List.map_map]
      have h : (List.map (String.data ∘ fun l => String.mk l) (splitCharsOn '\n' data)) =
          splitCharsOn '\n' data := List.map_id'' (fun _ => rfl) _
      rw [h]
      exact congrArg String.mk (joinCharsSep_splitCharsOn '\n' data)

/-! ## Decimal printing and parsing of Nat keys

JS stringifies the integer keys of the metadata map (JSON object keys) and
parses them back with parseInt on reload.  Both directions are modelled
with explicit decimal-digit functions, proved to round-trip. -/

/-- The decimal digit character of d (for d < 10). -/
def digitChar (d : Nat) : Char := Char.ofNat (48 + d)

/-- The value of a decimal digit character. -/
def digitVal (c : Char) : Nat := c.toNat - 48

/-- Decimal digits of n, most significant first (fuel-based so it reduces). -/
def digitsOf : Nat → Nat → List Char
  | 0, _ => []
  | fuel + 1, n => if n < 10 then [digitChar n] else digitsOf fuel (n / 10) ++ [digitChar (n % 10)]

/-- JS String(n) for a natural number n. -/
def natStr (n : Nat) : String := ⟨digitsOf (n + 1) n⟩

/-- The value of a decimal digit list (the model of JS parseInt on such input). -/
def digitsListVal (l : List Char) : Nat := l.foldl (fun a c => 10 * a + digitVal c) 0

/-- JS parseInt(key) for the decimal keys produced by natStr. -/
def keyVal (s : String) : Nat := digitsListVal s.data

theorem digitVal_digitChar {d : Nat} (h : d < 10) : digitVal (digitChar d) = d := by
  revert h
  revert d
  decide

theorem digitsListVal_append_digit (l : List Char) (c : Char) :
    digitsListVal (l ++ [c]) = 10 * digitsListVal l + digitVal c := by
  simp [digitsListVal, List.foldl_append]

theorem digitsListVal_digitsOf {fuel n : Nat} (h : n < fuel) :
    digitsListVal (digitsOf fuel n) = n := by
  induction fuel generalizing n with
  | zero => omega
  | succ fuel ih =>
      by_cases hlt : n < 10
      · simp [digitsOf, hlt, digitsListVal, digitVal_digitChar hlt]
      · have hdiv : n / 10 < fuel := by
          have h1 : n / 10 < n := Nat.div_lt_self (by omega) (by omega)
          omega
        simp only [digitsOf, hlt, if_false]
        rw [digitsListVal_append_digit, ih hdiv, digitVal_digitChar (Nat.mod_lt n (by omega))]
        omega

/-- parseInt inverts String(n): the metadata keys survive persistence. -/
theorem keyVal_natStr (n : Nat) : keyVal (natStr n) = n :=
  digitsListVal_digitsOf (Nat.lt_succ_self n)

/-! ## Path handling (the node path module, ASCII model) -/

/-- The file name after the last slash (the basename step of path.extname). -/
def afterLastSlash (p : String) : List Char :=
  (p.data.reverse.takeWhile (fun c => c ≠ '/')).reverse

/-- JS path.extname: the suffix of the basename from its last dot, empty when
the basename has no dot or only a leading dot. -/
def extname (p : String) : String :=
  let base := afterLastSlash p
  let revTail := base.reverse.takeWhile (fun c => c ≠ '.')
  if base.contains '.' then
    if base.length = revTail.length + 1 && (base.headD ' ') = '.' then ""
    else ⟨'.' :: revTail.reverse⟩
  else ""

/-- JS path.basename(p, ext): the basename with the given suffix removed. -/
def basenameWithout (p ext : String) : String :=
  let base : String := ⟨afterLastSlash p⟩
  if ext ≠ "" && jsEndsWith base ext && base ≠ ext then
    ⟨base.data.take (base.data.length - ext.data.length)⟩
  else base

/-- One step of path normalization: fold a segment onto the resolved stack. -/
def pathSegStep (absolute : Bool) (stack : List String) (seg : String) : List String :=
  if seg = "" || seg = "." then stack
  else if seg = ".." then
    match stack.getLast? with
    | some l => if l = ".." then stack ++ [seg] else stack.dropLast
    | none => if absolute then [] else [seg]
  else stack ++ [seg]

/-- JS path.join(a, b): concatenate with a slash and normalize dot segments.
This is the POSIX behaviour, sufficient for the repository paths involved. -/
def joinPath (a b : String) : String :=
  let absolute := jsStartsWith a "/"
  let segs := (jsSplitOn '/' a) ++ (jsSplitOn '/' b)
  let stack := segs.foldl (pathSegStep absolute) []
  let body := joinWith "/" stack
  if absolute then "/" ++ body
  else if body = "" then "." else body

/-- A resolved path lies outside a repository root (spec-side notion used by
the directory-traversal claims). -/
def pathOutside (root p : String) : Bool :=
  ¬ (p = root || jsStartsWith p (root ++ "/"))

/-! ## AST chunker: data model (src/ast-chunker.ts) -/

namespace ASTChunker

/-- Configuration for AST chunking behavior (ASTChunkerConfig merged with
DEFAULT_CONFIG; the defaults are those of the source). -/
structure ASTChunkerConfig where
  maxChunkSize : Nat := 3000
  minChunkSize : Nat := 100
  includeImports : Bool := true
  includeDocumentation : Bool := true
  extractDomainHints : Bool := true
  preserveHierarchy : Bool := true
  chunkNestedConstructs : Bool := true
deriving DecidableEq

/-- A business-domain hint attached to a chunk (interface DomainHint).
The category, like ChunkType below, is kept as the literal string of the
source union type. -/
structure DomainHint where
  category : String
  confidence : ℚ
  source : String
  keywords : List String
deriving DecidableEq

/-- The DOMAIN_KEYWORDS table of src/ast-chunker.ts, in declaration order
(the iteration order of Object.entries). -/
def DOMAIN_KEYWORDS : List (String × List String) := [
  ("authentication", ["auth", "login", "logout", "signin", "signout", "password", "credential", "jwt", "token", "oauth", "sso", "saml", "identity", "session"]),
  ("authorization", ["permission", "role", "policy", "access", "authorize", "acl", "rbac", "scope", "claim", "grant", "deny", "allowed", "forbidden"]),
  ("user-management", ["user", "account", "profile", "member", "registration", "signup", "onboard", "invite", "team", "organization"]),
  ("data-access", ["repository", "dao", "query", "database", "db", "sql", "orm", "entity", "schema", "migration", "seed", "connection", "pool"]),
  ("api-endpoint", ["endpoint", "route", "controller", "handler", "request", "response", "rest", "graphql", "api", "http", "get", "post", "put", "delete", "patch"]),
  ("business-logic", ["service", "domain", "workflow", "process", "rule", "calculation", "business", "logic", "usecase", "interactor"]),
  ("validation", ["validate", "validator", "schema", "constraint", "rule", "sanitize", "clean", "check", "verify", "assert"]),
  ("error-handling", ["error", "exception", "catch", "throw", "handle", "fault", "failure", "recovery", "retry", "fallback"]),
  ("logging", ["log", "logger", "trace", "debug", "info", "warn", "error", "audit", "track", "telemetry", "metric", "monitor"]),
  ("caching", ["cache", "redis", "memcache", "ttl", "invalidate", "store", "retrieve", "memo", "buffer"]),
  ("messaging", ["queue", "message", "event", "publish", "subscribe", "broker", "kafka", "rabbitmq", "bus", "notification", "emit", "listener"]),
  ("scheduling", ["schedule", "cron", "job", "task", "timer", "interval", "background", "worker", "batch", "recurring"]),
  ("file-handling", ["file", "upload", "download", "stream", "blob", "storage", "s3", "attachment", "document", "media", "image"]),
  ("payment", ["payment", "invoice", "billing", "subscription", "charge", "refund", "transaction", "order", "cart", "checkout", "stripe", "price"]),
  ("notification", ["notify", "notification", "alert", "email", "sms", "push", "send", "template", "mail"]),
  ("search", ["search", "query", "filter", "sort", "index", "elastic", "fulltext", "find", "lookup", "autocomplete"]),
  ("analytics", ["analytics", "report", "metric", "dashboard", "chart", "aggregate", "statistics", "insight", "tracking"]),
  ("configuration", ["config", "setting", "option", "preference", "environment", "env", "constant", "feature", "flag", "toggle"]),
  ("testing", ["test", "spec", "mock", "stub", "fixture", "assert", "expect", "describe", "it", "beforeEach", "afterEach"]),
  ("infrastructure", ["deploy", "build", "ci", "docker", "kubernetes", "terraform", "aws", "azure", "gcp", "infra", "devops"]),
  ("ui-component", ["component", "render", "view", "page", "layout", "widget", "modal", "form", "button", "input", "table", "list"]),
  ("state-management", ["state", "store", "reducer", "action", "dispatch", "selector", "context", "provider", "atom", "signal"]),
  ("routing", ["route", "router", "navigate", "redirect", "path", "url", "link", "history", "breadcrumb"]),
  ("middleware", ["middleware", "interceptor", "filter", "guard", "pipe", "transform", "before", "after", "around"]),
  ("utility", ["util", "helper", "common", "shared", "lib", "tool", "format", "parse", "convert", "transform"]),
  ("unknown", [])]

/-- JS Math.min on two exact rationals. -/
def jsMinQ (a b : ℚ) : ℚ := if a ≤ b then a else b

/-- The per-category hint of inferDomainHints: keyword filtering, the
3/2/1-weighted score, confidence min(score/10, 1), and the source field
decided from the FIRST matched keyword only (as in the source). -/
def categoryHint (nameL : String) (docL : Option String) (searchText : String)
    (cat : String) (keywords : List String) : Option DomainHint :=
  if cat = "unknown" then none
  else
    let matched := keywords.filter (fun k => containsSub searchText k)
    if matched.isEmpty then none
    else
      let score : Nat := (matched.map (fun k =>
        if containsSub nameL k then 3
        else match docL with
             | some d => if containsSub d k then 2 else 1
             | none => 1)).sum
      some { category := cat,
             confidence := jsMinQ (mkRat score 10) 1,
             source :=
               if containsSub nameL (matched.headD "") then "name"
               else match docL with
                    | some d => if containsSub d (matched.headD "") then "documentation" else "content"
                    | none => "content",
             keywords := matched }

/-- The search text of inferDomainHints: name, documentation, decorators
and content concatenated with single spaces and lower-cased. -/
def searchTextOf (name : String) (documentation : Option String)
    (decorators : List String) (content : String) : String :=
  jsLower (name ++ " " ++ (documentation.getD "") ++ " " ++
    joinWith " " decorators ++ " " ++ content)

/-- ASTChunker.inferDomainHints: score every category of DOMAIN_KEYWORDS
against the concatenated search text, drop categories with no match, sort
by confidence descending (stable, as JS Array.sort) and keep the top 3. -/
def inferDomainHints (name : String) (documentation : Option String)
    (decorators : List String) (content : String) : List DomainHint :=
  let searchText := searchTextOf name documentation decorators content
  let nameL := jsLower name
  let docL := documentation.map jsLower
  let hints := DOMAIN_KEYWORDS.filterMap (fun p => categoryHint nameL docL searchText p.1 p.2)
  (hints.insertionSort (fun a b => b.confidence ≤ a.confidence)).take 3

/-- A semantic code chunk (interface ASTChunk).  chunkType keeps the literal
strings of the ChunkType union.  The signature, typeInfo and exports fields,
which no control flow and no claim reads, are omitted. -/
structure ASTChunk where
  id : String
  filePath : String
  startLine : Nat
  endLine : Nat
  content : String
  language : String
  chunkType : String
  name : String
  parentName : Option String := none
  documentation : Option String := none
  imports : Option (List String) := none
  domainHints : Option (List DomainHint) := none
  contextPath : Option String := none
  isPublicApi : Option Bool := none
  decorators : Option (List String) := none
deriving DecidableEq

/-- A placeholder chunk for the unreachable empty-list case of
mergePendingChunks (the source never calls it on an empty run). -/
def emptyASTChunk : ASTChunk :=
  { id := "", filePath := "", startLine := 0, endLine := 0, content := "",
    language := "", chunkType := "unknown", name := "" }

/-- Minimum of a nonempty Nat list (JS Math.min over a spread array). -/
def natListMin : List Nat → Nat
  | [] => 0
  | n :: ns => ns.foldl Nat.min n

/-- Maximum of a nonempty Nat list (JS Math.max over a spread array). -/
def natListMax : List Nat → Nat
  | [] => 0
  | n :: ns => ns.foldl Nat.max n

/-- ASTChunker.mergePendingChunks: a single pending chunk passes through;
two or more are merged into one chunk of type file whose content joins the
constituents with a blank line and whose domainHints are the first three of
the concatenated constituent hints. -/
def mergePendingChunks (filePath language : String) : List ASTChunk → ASTChunk
  | [] => emptyASTChunk
  | [c] => c
  | c :: c2 :: cs =>
      let chunks := c :: c2 :: cs
      let startLine := natListMin (chunks.map ASTChunk.startLine)
      let endLine := natListMax (chunks.map ASTChunk.endLine)
      let content := joinWith "\n\n" (chunks.map ASTChunk.content)
      let names := joinWith ", " (chunks.map ASTChunk.name)
      let allDomainHints := chunks.flatMap (fun x => x.domainHints.getD [])
      { id := filePath ++ ":" ++ natStr startLine ++ "-" ++ natStr endLine,
        filePath := filePath,
        startLine := startLine,
        endLine := endLine,
        content := content,
        language := language,
        chunkType := "file",
        name := names,
        domainHints := some (allDomainHints.take 3) }

/-- The accumulation loop of ASTChunker.mergeSmallChunks: chunks of size at
least twice the minimum flush the pending run and pass through; smaller
chunks accumulate until the combined size reaches twice the minimum. -/
def mergeLoop (cfg : ASTChunkerConfig) (fp lang : String) :
    List ASTChunk → List ASTChunk → List ASTChunk
  | [], pending => if pending.isEmpty then [] else [mergePendingChunks fp lang pending]
  | c :: rest, pending =>
      if 2 * cfg.minChunkSize ≤ strLen c.content then
        (if pending.isEmpty then [] else [mergePendingChunks fp lang pending]) ++
          c :: mergeLoop cfg fp lang rest []
      else
        let pending2 := pending ++ [c]
        if 2 * cfg.minChunkSize ≤ (pending2.map (fun x => strLen x.content)).sum then
          mergePendingChunks fp lang pending2 :: mergeLoop cfg fp lang rest []
        else mergeLoop cfg fp lang rest pending2

/-- ASTChunker.mergeSmallChunks (argument order of the source). -/
def mergeSmallChunks (cfg : ASTChunkerConfig) (chunks : List ASTChunk)
    (filePath language : String) : List ASTChunk :=
  if chunks.length ≤ 1 then chunks else mergeLoop cfg filePath language chunks []

/-- The same loop, recording the runs of constituent chunks instead of the
merged results (specification-side decomposition of mergeLoop). -/
def mergeGroupsLoop (cfg : ASTChunkerConfig) :
    List ASTChunk → List ASTChunk → List (List ASTChunk)
  | [], pending => if pending.isEmpty then [] else [pending]
  | c :: rest, pending =>
      if 2 * cfg.minChunkSize ≤ strLen c.content then
        (if pending.isEmpty then [] else [pending]) ++ [c] :: mergeGroupsLoop cfg rest []
      else
        let pending2 := pending ++ [c]
        if 2 * cfg.minChunkSize ≤ (pending2.map (fun x => strLen x.content)).sum then
          pending2 :: mergeGroupsLoop cfg rest []
        else mergeGroupsLoop cfg rest pending2

theorem mergePendingChunks_singleton (fp lang : String) (c : ASTChunk) :
    mergePendingChunks fp lang [c] = c := rfl

theorem mergeLoop_eq_groups (cfg : ASTChunkerConfig) (fp lang : String)
    (l pending : List ASTChunk) :
    mergeLoop cfg fp lang l pending =
      (mergeGroupsLoop cfg l pending).map (mergePendingChunks fp lang) := by
  induction l generalizing pending with
  | nil =>
      by_cases h : pending.isEmpty <;> simp [mergeLoop, mergeGroupsLoop, h]
  | cons c rest ih =>
      by_cases hbig : 2 * cfg.minChunkSize ≤ strLen c.content
      · by_cases hp : pending.isEmpty <;>
          simp [mergeLoop, mergeGroupsLoop, hbig, hp, ih, mergePendingChunks_singleton]
      · by_cases hsum : 2 * cfg.minChunkSize ≤
            ((pending.map (fun x => strLen x.content)).sum + strLen c.content) <;>
          simp [mergeLoop, mergeGroupsLoop, hbig, hsum, ih]

theorem mergeGroupsLoop_join (cfg : ASTChunkerConfig) (l pending : List ASTChunk) :
    (mergeGroupsLoop cfg l pending).flatten = pending ++ l := by
  induction l generalizing pending with
  | nil =>
      by_cases h : pending.isEmpty
      · simp [mergeGroupsLoop, h, List.isEmpty_iff.mp h]
      · simp [mergeGroupsLoop, h]
  | cons c rest ih =>
      by_cases hbig : 2 * cfg.minChunkSize ≤ strLen c.content
      · by_cases hp : pending.isEmpty
        · simp [mergeGroupsLoop, hbig, hp, ih, List.isEmpty_iff.mp hp]
        · simp [mergeGroupsLoop, hbig, hp, ih]
      · by_cases hsum : 2 * cfg.minChunkSize ≤
            ((pending.map (fun x => strLen x.content)).sum + strLen c.content)
        · simp [mergeGroupsLoop, hbig, hsum, ih]
        · have := ih (pending ++ [c])
          simp only [mergeGroupsLoop, hbig, if_false, hsum]
          simp only [List.map_append, List.sum_append, List.map_cons, List.map_nil,
            List.sum_cons, List.sum_nil, Nat.add_zero] at hsum ⊢
          rw [if_neg hsum]
          simpa using this

theorem mergeGroupsLoop_shape (cfg : ASTChunkerConfig) (l pending : List ASTChunk)
    (hp : ∀ x ∈ pending, strLen x.content < 2 * cfg.minChunkSize) :
    ∀ g ∈ mergeGroupsLoop cfg l pending,
      g ≠ [] ∧ (2 ≤ g.length → ∀ x ∈ g, strLen x.content < 2 * cfg.minChunkSize) := by
  induction l generalizing pending with
  | nil =>
      intro g hg
      by_cases h : pending.isEmpty
      · simp [mergeGroupsLoop, h] at hg
      · simp only [mergeGroupsLoop, h] at hg
        simp only [Bool.false_eq_true, if_false, List.mem_singleton] at hg
        subst hg
        exact ⟨fun hnil => h (by simp [hnil]), fun _ => hp⟩
  | cons c rest ih =>
      intro g hg
      by_cases hbig : 2 * cfg.minChunkSize ≤ strLen c.content
      · simp only [mergeGroupsLoop, hbig, if_true] at hg
        rcases List.mem_append.mp hg with hg1 | hg2
        · by_cases hpe : pending.isEmpty
          · simp [hpe] at hg1
          · simp only [hpe, Bool.false_eq_true, if_false, List.mem_singleton] at hg1
            subst hg1
            exact ⟨fun hnil => hpe (by simp [hnil]), fun _ => hp⟩
        · rcases List.mem_cons.mp hg2 with hg3 | hg4
          · subst hg3
            refine ⟨by simp, ?_⟩
            intro hlen
            simp at hlen
          · exact ih [] (by simp) g hg4
      · have hp2 : ∀ x ∈ pending ++ [c], strLen x.content < 2 * cfg.minChunkSize := by
          intro x hx
          rcases List.mem_append.mp hx with h1 | h2
          · exact hp x h1
          · simp only [List.mem_singleton] at h2
            subst h2
            omega
        by_cases hsum : 2 * cfg.minChunkSize ≤
            ((pending.map (fun x => strLen x.content)).sum + strLen c.content)
        · have hg2 : g ∈ (pending ++ [c]) :: mergeGroupsLoop cfg rest [] := by
            simpa [mergeGroupsLoop, hbig, hsum] using hg
          rcases List.mem_cons.mp hg2 with hg3 | hg4
          · subst hg3
            exact ⟨by simp, fun _ => hp2⟩
          · exact ih [] (by simp) g hg4
        · have hg2 : g ∈ mergeGroupsLoop cfg rest (pending ++ [c]) := by
            simpa [mergeGroupsLoop, hbig, hsum] using hg
          exact ih (pending ++ [c]) hp2 g hg2

/-! ## The TypeScript syntax-tree interface

The TypeScript compiler (an external library) is modelled at its
interface: a parse result is a tree carrying, per node, exactly the data
that src/ast-chunker.ts queries from the compiler API — the node kind
dispatched on, the 0-based start/end lines of getStart/getEnd, the name
text, the leading comment ranges (line of the first, text of each), the
decorator expression texts, the parameter name texts, the shape of the
first variable-declaration initializer, and whether export/private
modifiers are present.  chunkTypeScript receives the parse as a function
argument. -/

inductive TsKind where
  | sourceFile | classDecl | interfaceDecl | typeAliasDecl | enumDecl
  | functionDecl | methodDecl | ctorDecl | variableStmt | moduleDecl
  | importDecl | otherKind
deriving DecidableEq

/-- Shape of the initializer of the first declaration of a variable
statement, as tested by inferVariableType. -/
inductive VarInit where
  | arrowOrFunctionExpr | objectLiteral | otherInit | noInit
deriving DecidableEq

inductive TsNode where
  | mk (kind : TsKind) (startLine endLine : Nat) (nameText : Option String)
       (leadingComments : List (Nat × String)) (decoratorTexts : List String)
       (paramNames : List String) (varInit : VarInit) (varHasIdentName : Bool)
       (hasExportMod : Bool) (hasPrivateMod : Bool) (moduleSpecifier : Option String)
       (children : List TsNode)

def TsNode.kind : TsNode → TsKind
  | .mk k _ _ _ _ _ _ _ _ _ _ _ _ => k

def TsNode.startLine : TsNode → Nat
  | .mk _ s _ _ _ _ _ _ _ _ _ _ _ => s

def TsNode.endLine : TsNode → Nat
  | .mk _ _ e _ _ _ _ _ _ _ _ _ _ => e

def TsNode.nameText : TsNode → Option String
  | .mk _ _ _ n _ _ _ _ _ _ _ _ _ => n

def TsNode.leadingComments : TsNode → List (Nat × String)
  | .mk _ _ _ _ l _ _ _ _ _ _ _ _ => l

def TsNode.decoratorTexts : TsNode → List String
  | .mk _ _ _ _ _ d _ _ _ _ _ _ _ => d

def TsNode.paramNames : TsNode → List String
  | .mk _ _ _ _ _ _ p _ _ _ _ _ _ => p

def TsNode.varInit : TsNode → VarInit
  | .mk _ _ _ _ _ _ _ v _ _ _ _ _ => v

def TsNode.varHasIdentName : TsNode → Bool
  | .mk _ _ _ _ _ _ _ _ v _ _ _ _ => v

def TsNode.hasExportMod : TsNode → Bool
  | .mk _ _ _ _ _ _ _ _ _ e _ _ _ => e

def TsNode.hasPrivateMod : TsNode → Bool
  | .mk _ _ _ _ _ _ _ _ _ _ p _ _ => p

def TsNode.moduleSpecifier : TsNode → Option String
  | .mk _ _ _ _ _ _ _ _ _ _ _ m _ => m

def TsNode.children : TsNode → List TsNode
  | .mk _ _ _ _ _ _ _ _ _ _ _ _ c => c

/-- The name of a decorator: the expression text before the first
parenthesis (decorator.expression.getText().split(paren)[0]). -/
def decoratorName (text : String) : String := (jsSplitOn '(' text).headD text

/-- JS truthiness default for an optional name: empty strings fall back
too (name || fallback). -/
def truthyName (n : Option String) (fallback : String) : String :=
  match n with
  | some s => if s = "" then fallback else s
  | none => fallback

/-- ASTChunker.inferClassType: decorator names take priority, then
name-suffix conventions, else class. -/
def inferClassType (decoratorTexts : List String) (rawName : Option String) : String :=
  let name := truthyName rawName ""
  let nameLower := jsLower name
  match decoratorTexts.findSome? (fun d =>
    let n := decoratorName d
    if n = "Controller" then some "controller"
    else if n = "Injectable" || n = "Service" then some "service"
    else if n = "Entity" || n = "Model" then some "model"
    else if n = "Component" then some "component"
    else if n = "Middleware" then some "middleware"
    else none) with
  | some t => t
  | none =>
      if jsEndsWith nameLower "controller" then "controller"
      else if jsEndsWith nameLower "service" then "service"
      else if jsEndsWith nameLower "repository" || jsEndsWith nameLower "repo" then "repository"
      else if jsEndsWith nameLower "model" || jsEndsWith nameLower "entity" then "model"
      else if jsEndsWith nameLower "middleware" then "middleware"
      else if jsEndsWith nameLower "handler" then "handler"
      else if jsEndsWith nameLower "component" then "component"
      else "class"

/-- ASTChunker.inferFunctionType: hook, test, handler and middleware
conventions, else function. -/
def inferFunctionType (rawName : Option String) (paramNames : List String) : String :=
  let name := truthyName rawName ""
  let nameLower := jsLower name
  if jsStartsWith nameLower "use" && decide (3 < strLen nameLower) then "hook"
  else if jsStartsWith nameLower "test" || jsStartsWith nameLower "it" ||
      containsSub nameLower "spec" then "test"
  else if containsSub nameLower "handler" || containsSub nameLower "handle" then "handler"
  else if containsSub nameLower "middleware" || decide (paramNames.length = 3) then
    let params := paramNames.map jsLower
    if params.contains "req" && params.contains "res" &&
        (params.contains "next" || decide (params.length = 3)) then "middleware"
    else "function"
  else "function"

/-- ASTChunker.inferMethodType: lifecycle names (compared after
lower-casing, exactly as the source does) give hook, route decorators give
handler, else method. -/
def inferMethodType (name : String) (decoratorTexts : List String) : String :=
  let n := jsLower name
  if ["constructor", "ngOnInit", "ngOnDestroy", "componentDidMount",
      "componentWillUnmount", "render"].contains n then "hook"
  else
    match decoratorTexts.findSome? (fun d =>
      if ["Get", "Post", "Put", "Delete", "Patch", "HttpGet", "HttpPost"].contains
          (decoratorName d) then some "handler" else none) with
    | some t => t
    | none => "method"

/-- ASTChunker.inferVariableType: PascalCase function initializers are
components, use-prefixed ones hooks; config-named object literals are
config; everything else is constant (the source returns constant on both
of its final paths). -/
def inferVariableType (name : String) (init : VarInit) : String :=
  let nameLower := jsLower name
  match init with
  | .arrowOrFunctionExpr =>
      if (match name.data with
          | c :: _ :: _ => c == upperChar c
          | _ => false) then "component"
      else if jsStartsWith nameLower "use" then "hook"
      else "function"
  | .objectLiteral =>
      if containsSub nameLower "config" || containsSub nameLower "options" ||
          containsSub nameLower "settings" then "config"
      else "constant"
  | _ => "constant"

/-- The kind dispatch of processTypeScriptNode: the chunk type, name,
isPublicApi flag and decorator list per node kind, or none for the node
kinds the source skips. -/
def nodeBasics (node : TsNode) : Option (String × String × Bool × List String) :=
  match node.kind with
  | .classDecl =>
      some (inferClassType node.decoratorTexts node.nameText,
            truthyName node.nameText "AnonymousClass",
            node.hasExportMod, node.decoratorTexts)
  | .interfaceDecl =>
      some ("interface", node.nameText.getD "", node.hasExportMod, [])
  | .typeAliasDecl =>
      some ("type", node.nameText.getD "", node.hasExportMod, [])
  | .enumDecl =>
      some ("enum", node.nameText.getD "", node.hasExportMod, [])
  | .functionDecl =>
      some (inferFunctionType node.nameText node.paramNames,
            truthyName node.nameText "anonymousFunction",
            node.hasExportMod, [])
  | .methodDecl =>
      some (inferMethodType (node.nameText.getD "") node.decoratorTexts,
            node.nameText.getD "", !node.hasPrivateMod, node.decoratorTexts)
  | .ctorDecl =>
      some ("constructor", "constructor", false, [])
  | .variableStmt =>
      if node.varHasIdentName then
        some (inferVariableType (node.nameText.getD "") node.varInit,
              node.nameText.getD "", node.hasExportMod, [])
      else none
  | .moduleDecl =>
      some ("module", node.nameText.getD "", true, [])
  | _ => none

/-- The documentation of a node: the text of the last leading comment. -/
def nodeDoc (node : TsNode) : Option String := (node.leadingComments.getLast?).map Prod.snd

/-- The chunk start line: extended to the first leading comment when
documentation is present (JS truthiness: an empty comment text does not
extend). -/
def chunkStartOf (node : TsNode) : Nat :=
  match node.leadingComments with
  | [] => node.startLine
  | (docLine, _) :: _ => if ((nodeDoc node).getD "") = "" then node.startLine else docLine

/-- The chunk record of processTypeScriptNode, given the outcome of the
kind dispatch. -/
def mkProcessedChunk (cfg : ASTChunkerConfig) (lines : List String)
    (filePath language : String) (parentName contextPath : Option String)
    (node : TsNode) (chunkType name : String) (pubApi : Bool)
    (decorators : List String) : ASTChunk :=
  let documentation := nodeDoc node
  let chunkStart := chunkStartOf node
  let chunkContent := joinWith "\n" (jsSlice lines chunkStart (node.endLine + 1))
  let domainHints :=
    if cfg.extractDomainHints then
      some (inferDomainHints name documentation decorators chunkContent)
    else none
  { id := filePath ++ ":" ++ natStr (chunkStart + 1) ++ "-" ++ natStr (node.endLine + 1),
    filePath := filePath,
    startLine := chunkStart + 1,
    endLine := node.endLine + 1,
    content := chunkContent,
    language := language,
    chunkType := chunkType,
    name := name,
    parentName := parentName,
    documentation := documentation,
    domainHints := match domainHints with
                   | some l => if l.isEmpty then none else some l
                   | none => none,
    contextPath := contextPath,
    isPublicApi := some pubApi,
    decorators := if decorators.isEmpty then none else some decorators }

/-- ASTChunker.processTypeScriptNode: classify the node, extend the start
line to the first leading comment when documentation is present, cut the
content as the exact joined line range, drop chunks below the minimum
size, and attach domain hints. -/
def processTypeScriptNode (cfg : ASTChunkerConfig) (lines : List String)
    (filePath language : String) (parentName contextPath : Option String)
    (node : TsNode) : Option ASTChunk :=
  match nodeBasics node with
  | none => none
  | some (chunkType, name, pubApi, decorators) =>
      if strLen (joinWith "\n" (jsSlice lines (chunkStartOf node) (node.endLine + 1))) <
          cfg.minChunkSize then none
      else
        some (mkProcessedChunk cfg lines filePath language parentName contextPath node
          chunkType name pubApi decorators)

/-- ASTChunker.shouldChunkNested: composite chunks whose content exceeds
70 percent of the maximum chunk size (the comparison is written with the
denominator cleared: len greater than 0.7 times max). -/
def shouldChunkNested (cfg : ASTChunkerConfig) (chunk : ASTChunk) : Bool :=
  decide (7 * cfg.maxChunkSize < 10 * strLen chunk.content) &&
    ["class", "service", "controller", "component", "model"].contains chunk.chunkType

mutual

/-- The visit closure of ASTChunker.chunkTypeScript: emit the chunk of a
node, then recurse into the children of large composite chunks (passing
parentName and the extended context path), and into the children of the
source file node itself. -/
def visitNode (cfg : ASTChunkerConfig) (lines : List String) (filePath language : String) :
    TsNode → Option String → Option String → List ASTChunk
  | node@(.mk kind _ _ _ _ _ _ _ _ _ _ _ children), parentName, contextPath =>
      match processTypeScriptNode cfg lines filePath language parentName contextPath node with
      | some chunk =>
          chunk ::
            (if cfg.chunkNestedConstructs && shouldChunkNested cfg chunk then
              let newContext :=
                match contextPath with
                | some cp => cp ++ " > " ++ chunk.name
                | none => chunk.name
              visitChildren cfg lines filePath language children (some chunk.name) (some newContext)
            else [])
      | none =>
          if kind = .sourceFile then
            visitChildren cfg lines filePath language children parentName contextPath
          else []

def visitChildren (cfg : ASTChunkerConfig) (lines : List String) (filePath language : String) :
    List TsNode → Option String → Option String → List ASTChunk
  | [], _, _ => []
  | n :: rest, parentName, contextPath =>
      visitNode cfg lines filePath language n parentName contextPath ++
        visitChildren cfg lines filePath language rest parentName contextPath

end

/-- ASTChunker.extractTypeScriptImports: the import declarations among the
top-level children become one import-block chunk spanning from the first
such line to the last, collecting the string-literal module specifiers. -/
def extractTypeScriptImports (lines : List String) (sf : TsNode)
    (filePath language : String) : Option ASTChunk :=
  let imps := sf.children.filter (fun n => n.kind = .importDecl)
  match imps with
  | [] => none
  | first :: _ =>
      let startLine := first.startLine
      let endLine :=
        match imps.getLast? with
        | some l => l.endLine
        | none => 0
      some { id := filePath ++ ":" ++ natStr (startLine + 1) ++ "-" ++ natStr (endLine + 1),
             filePath := filePath,
             startLine := startLine + 1,
             endLine := endLine + 1,
             content := joinWith "\n" (jsSlice lines startLine (endLine + 1)),
             language := language,
             chunkType := "import-block",
             name := "imports",
             imports := some (imps.filterMap TsNode.moduleSpecifier) }

/-- ASTChunker.createWholeFileChunk: the whole file as a single chunk of
type file, named after the basename, with domain hints inferred from the
full content. -/
def createWholeFileChunk (filePath content language : String)
    (imports : Option (List String)) : ASTChunk :=
  let lines := jsLines content
  let name := basenameWithout filePath (extname filePath)
  { id := filePath ++ ":1-" ++ natStr lines.length,
    filePath := filePath,
    startLine := 1,
    endLine := lines.length,
    content := content,
    language := language,
    chunkType := "file",
    name := name,
    imports := imports,
    domainHints := some (inferDomainHints name none [] content) }

/-- ASTChunker.chunkTypeScript: parse (external front end, passed as an
argument), extract the import block, visit the tree, fall back to a whole
file chunk for small files with at most one extracted chunk, and merge
small chunks otherwise. -/
def chunkTypeScript (cfg : ASTChunkerConfig) (parse : String → TsNode)
    (filePath content language : String) : List ASTChunk :=
  let lines := jsLines content
  let sf := parse content
  let importsChunk := extractTypeScriptImports lines sf filePath language
  let chunks :=
    (match importsChunk with
     | some i => [i]
     | none => []) ++ visitNode cfg lines filePath language sf none none
  if chunks.length ≤ 1 && decide (strLen content < cfg.maxChunkSize) then
    [createWholeFileChunk filePath content language (chunks.head?.bind ASTChunk.imports)]
  else mergeSmallChunks cfg chunks filePath language

/-! ## Regex matchers of the pattern chunkers

Each anchored JS regex of the source is modelled by a hand-written matcher
on the character list.  Greedy runs of a character class followed by a
token that cannot start with a character of that class are deterministic;
where JS backtracking can matter (the optional keyword groups and the
method-signature run that may swallow the separating whitespace) the
matcher enumerates the alternatives in the order the regex engine tries
them. -/

/-- Strip a literal prefix. -/
def stripLit : List Char → List Char → Option (List Char)
  | [], cs => some cs
  | _ :: _, [] => none
  | p :: ps, c :: cs => if c = p then stripLit ps cs else none

/-- The regex piece backslash-s-star: skip optional whitespace. -/
def skipWS (cs : List Char) : List Char := cs.dropWhile (fun c => jsWS c)

/-- The regex piece backslash-s-plus: require at least one whitespace. -/
def reqWS : List Char → Option (List Char)
  | [] => none
  | c :: cs => if jsWS c then some (skipWS cs) else none

/-- Greedy run of word characters and the rest. -/
def takeWordRun (cs : List Char) : List Char × List Char :=
  (cs.takeWhile (fun c => wordChar c), cs.dropWhile (fun c => wordChar c))

/-- An optional keyword followed by mandatory whitespace — the regex piece
(?:kw backslash-s-plus)? — which matches empty when the keyword or the
whitespace is absent. -/
def optKwSp (kw : String) (cs : List Char) : List Char :=
  match stripLit kw.data cs with
  | some rest =>
      match reqWS rest with
      | some r => r
      | none => cs
  | none => cs

/-- The regex tail: word run, whitespace, captured word run, optional
whitespace, opening parenthesis. -/
def wordSpWordParen (cs : List Char) : Option String :=
  let (w1, r1) := takeWordRun cs
  if w1.isEmpty then none
  else
    (reqWS r1).bind fun r2 =>
      let (w2, r3) := takeWordRun r2
      if w2.isEmpty then none
      else
        match skipWS r3 with
        | '(' :: _ => some ⟨w2⟩
        | _ => none

/-- The regex tail: whitespace, captured word run, optional whitespace,
opening parenthesis. -/
def spWordParen (cs : List Char) : Option String :=
  (reqWS cs).bind fun r =>
    let (w, r2) := takeWordRun r
    if w.isEmpty then none
    else
      match skipWS r2 with
      | '(' :: _ => some ⟨w⟩
      | _ => none

/-- Generic pattern 1: optional export, optional async, the function
keyword, whitespace, captured name. -/
def matchJsFunction (line : String) : Option String :=
  let cs := optKwSp "async" (optKwSp "export" line.data)
  (stripLit "function".data cs).bind fun cs2 =>
    (reqWS cs2).bind fun cs3 =>
      let (w, _) := takeWordRun cs3
      if w.isEmpty then none else some ⟨w⟩

/-- Generic pattern 2: optional export, const, whitespace, captured name,
optional whitespace, equals sign. -/
def matchConstAssign (line : String) : Option String :=
  let cs := optKwSp "export" line.data
  (stripLit "const".data cs).bind fun cs2 =>
    (reqWS cs2).bind fun cs3 =>
      let (w, rest) := takeWordRun cs3
      if w.isEmpty then none
      else
        match skipWS rest with
        | '=' :: _ => some ⟨w⟩
        | _ => none

/-- Generic pattern 3: the Python def keyword and a captured name. -/
def matchPyDefName (line : String) : Option String :=
  (stripLit "def".data line.data).bind fun cs =>
    (reqWS cs).bind fun cs2 =>
      let (w, _) := takeWordRun cs2
      if w.isEmpty then none else some ⟨w⟩

/-- Generic pattern 4: the Go func keyword and a captured name. -/
def matchGoFuncName (line : String) : Option String :=
  (stripLit "func".data line.data).bind fun cs =>
    (reqWS cs).bind fun cs2 =>
      let (w, _) := takeWordRun cs2
      if w.isEmpty then none else some ⟨w⟩

/-- Generic pattern 5: pub fn and a captured name (Rust). -/
def matchRustFn (line : String) : Option String :=
  (stripLit "pub".data line.data).bind fun cs =>
    (reqWS cs).bind fun cs2 =>
      (stripLit "fn".data cs2).bind fun cs3 =>
        (reqWS cs3).bind fun cs4 =>
          let (w, _) := takeWordRun cs4
          if w.isEmpty then none else some ⟨w⟩

/-- Generic pattern 6: optional public/private, optional whitespace,
optional static, optional whitespace, a word, whitespace, a captured word
and an opening parenthesis.  The optional groups are tried in the order of
the regex alternation. -/
def matchJavaCsSig (line : String) : Option String :=
  let opts1 : List (Option String) := [some "public", some "private", none]
  let opts2 : List (Option String) := [some "static", none]
  (opts1.flatMap (fun o1 => opts2.map (fun o2 => (o1, o2)))).findSome?
    (fun p =>
      (match p.1 with
       | some k => stripLit k.data line.data
       | none => some line.data).bind fun cs1 =>
        let cs2 := skipWS cs1
        (match p.2 with
         | some k => stripLit k.data cs2
         | none => some cs2).bind fun cs3 =>
          wordSpWordParen (skipWS cs3))

/-- The pattern list of chunkGeneric in source order; first match wins. -/
def genericFirstMatch (line : String) : Option String :=
  (matchJsFunction line).orElse fun _ =>
  (matchConstAssign line).orElse fun _ =>
  (matchPyDefName line).orElse fun _ =>
  (matchGoFuncName line).orElse fun _ =>
  (matchRustFn line).orElse fun _ =>
  matchJavaCsSig line

/-- Count occurrences of a character in a line (the brace trackers). -/
def countChar (c : Char) (line : String) : Nat := line.data.count c

/-! ## Generic fallback chunker -/

/-- One emitted chunk of chunkGeneric.  Note the trim applied to the
content. -/
def mkGenericChunk (filePath language name : String) (startIdx endIdx : Nat)
    (chunkContent : String) : ASTChunk :=
  { id := filePath ++ ":" ++ natStr (startIdx + 1) ++ "-" ++ natStr endIdx,
    filePath := filePath,
    startLine := startIdx + 1,
    endLine := endIdx,
    content := chunkContent,
    language := language,
    chunkType := "function",
    name := name,
    domainHints := some (inferDomainHints name none [] chunkContent) }

/-- The scanning loop of ASTChunker.chunkGeneric. -/
def genericLoop (cfg : ASTChunkerConfig) (lines : List String)
    (filePath language : String) :
    Nat → List String → Nat → String → Int → List ASTChunk
  | _, [], chunkStart, chunkName, _ =>
      let finalContent := jsTrim (joinWith "\n" (lines.drop chunkStart))
      if cfg.minChunkSize ≤ strLen finalContent then
        [mkGenericChunk filePath language chunkName chunkStart lines.length finalContent]
      else []
  | i, line :: rest, chunkStart, chunkName, braceCount =>
      let opens : Int := countChar '{' line
      let closes : Int := countChar '}' line
      match (if braceCount = 0 then genericFirstMatch line else none) with
      | some newName =>
          let emitted :=
            if chunkStart < i then
              let c := jsTrim (joinWith "\n" (jsSlice lines chunkStart i))
              if cfg.minChunkSize ≤ strLen c then
                [mkGenericChunk filePath language chunkName chunkStart i c]
              else []
            else []
          emitted ++ genericLoop cfg lines filePath language (i + 1) rest i newName
            (braceCount + opens - closes)
      | none =>
          genericLoop cfg lines filePath language (i + 1) rest chunkStart chunkName
            (braceCount + opens - closes)

/-- ASTChunker.chunkGeneric: segment at cross-language declaration
patterns while tracking brace balance; whole-file fallback when nothing
was extracted. -/
def chunkGeneric (cfg : ASTChunkerConfig) (filePath content language : String) :
    List ASTChunk :=
  let lines := jsLines content
  let chunks := genericLoop cfg lines filePath language 0 lines 0 "module" 0
  if chunks.isEmpty then [createWholeFileChunk filePath content language none] else chunks

/-! ## Python pattern chunker -/

/-- The state of the Python scanner: the pending construct. -/
structure PyCur where
  start : Nat
  name : String
  type : String
  decorators : List String
deriving DecidableEq

/-- Python decorator pattern: at-sign and a captured word (on the
trimmed-start line). -/
def matchPyDecorator (trimmed : String) : Option String :=
  match trimmed.data with
  | '@' :: rest =>
      let (w, _) := takeWordRun rest
      if w.isEmpty then none else some ⟨w⟩
  | _ => none

/-- Python class pattern: class keyword, whitespace, captured name, then
a lazy gap up to a colon somewhere on the line. -/
def matchPyClass (trimmed : String) : Option String :=
  (stripLit "class".data trimmed.data).bind fun cs =>
    (reqWS cs).bind fun cs2 =>
      let (w, rest) := takeWordRun cs2
      if w.isEmpty then none
      else if rest.contains ':' then some ⟨w⟩ else none

/-- Python function pattern: optional async, def, whitespace, captured
name, optional whitespace, opening parenthesis. -/
def matchPyFunc (trimmed : String) : Option String :=
  let cs := optKwSp "async" trimmed.data
  (stripLit "def".data cs).bind fun cs2 =>
    (reqWS cs2).bind fun cs3 =>
      let (w, rest) := takeWordRun cs3
      if w.isEmpty then none
      else
        match skipWS rest with
        | '(' :: _ => some ⟨w⟩
        | _ => none

/-- ASTChunker.createPythonChunk: the chunk of a finished Python
construct; the end excludes the decorator lines already collected for the
next construct. -/
def createPythonChunk (lines : List String) (filePath : String) (cur : PyCur)
    (endIdx : Nat) (nextDecorators : List String) : ASTChunk :=
  let actualEnd := endIdx - nextDecorators.length
  let content := joinWith "\n" (jsSlice lines cur.start actualEnd)
  { id := filePath ++ ":" ++ natStr (cur.start + 1) ++ "-" ++ natStr actualEnd,
    filePath := filePath,
    startLine := cur.start + 1,
    endLine := actualEnd,
    content := content,
    language := "python",
    chunkType := cur.type,
    name := cur.name,
    decorators := if cur.decorators.isEmpty then none else some cur.decorators,
    domainHints := some (inferDomainHints cur.name none cur.decorators content) }

/-- The scanning loop of ASTChunker.chunkPython. -/
def pyLoop (lines : List String) (filePath : String) :
    Nat → List String → Option PyCur → List String → List ASTChunk
  | _, [], cur, _ =>
      match cur with
      | some c => [createPythonChunk lines filePath c lines.length []]
      | none => []
  | i, line :: rest, cur, decorators =>
      let trimmed := jsTrimStart line
      let currentIndent := strLen line - strLen trimmed
      match matchPyDecorator trimmed with
      | some d => pyLoop lines filePath (i + 1) rest cur (decorators ++ [d])
      | none =>
          match matchPyClass trimmed with
          | some cname =>
              let emitted :=
                match cur with
                | some c => [createPythonChunk lines filePath c i decorators]
                | none => []
              emitted ++ pyLoop lines filePath (i + 1) rest
                (some { start := i - decorators.length, name := cname,
                        type := "class", decorators := decorators }) []
          | none =>
              match matchPyFunc trimmed with
              | some fname =>
                  if currentIndent = 0 then
                    let emitted :=
                      match cur with
                      | some c => [createPythonChunk lines filePath c i decorators]
                      | none => []
                    emitted ++ pyLoop lines filePath (i + 1) rest
                      (some { start := i - decorators.length, name := fname,
                              type := "function", decorators := decorators }) []
                  else pyLoop lines filePath (i + 1) rest cur decorators
              | none => pyLoop lines filePath (i + 1) rest cur decorators

/-- ASTChunker.chunkPython (takes no minimum-size filter in the source). -/
def chunkPython (filePath content : String) : List ASTChunk :=
  let lines := jsLines content
  let chunks := pyLoop lines filePath 0 lines none []
  if chunks.isEmpty then [createWholeFileChunk filePath content "python" none] else chunks

/-! ## C# (and Java/Kotlin) pattern chunker -/

/-- A pending construct of the C# brace tracker. -/
structure CsCons where
  start : Nat
  name : String
  type : String
  braceLevel : Int
deriving DecidableEq

/-- A character of the method-signature run [word, angle brackets, square
brackets, comma, whitespace]. -/
def csMethodChar (c : Char) : Bool :=
  wordChar c || c = '<' || c = '>' || c = '[' || c = ']' || c = ',' || jsWS c

/-- C# namespace pattern: leading whitespace, namespace keyword, a
captured dotted name. -/
def csNamespaceMatch (line : String) : Option String :=
  (stripLit "namespace".data (skipWS line.data)).bind fun cs =>
    (reqWS cs).bind fun cs2 =>
      let w := cs2.takeWhile (fun c => wordChar c || c = '.')
      if w.isEmpty then none else some ⟨w⟩

/-- Enumerate optional keyword alternatives in regex order (each
alternative, then the empty option). -/
def kwOptions (kws : List String) : List (Option String) :=
  kws.map some ++ [none]

/-- C# class pattern: optional access modifier, optional class modifier,
the class keyword, a captured name. -/
def csClassMatch (line : String) : Option String :=
  ((kwOptions ["public", "private", "internal", "protected"]).flatMap
    (fun o1 => (kwOptions ["static", "abstract", "sealed", "partial"]).map
      (fun o2 => (o1, o2)))).findSome? (fun p =>
    let cs0 := skipWS line.data
    (match p.1 with
     | some k => stripLit k.data cs0
     | none => some cs0).bind fun cs1 =>
      let cs2 := skipWS cs1
      (match p.2 with
       | some k => stripLit k.data cs2
       | none => some cs2).bind fun cs3 =>
        (stripLit "class".data (skipWS cs3)).bind fun cs4 =>
          (reqWS cs4).bind fun cs5 =>
            let (w, _) := takeWordRun cs5
            if w.isEmpty then none else some ⟨w⟩)

/-- C# interface pattern. -/
def csInterfaceMatch (line : String) : Option String :=
  (kwOptions ["public", "private", "internal"]).findSome? (fun o1 =>
    let cs0 := skipWS line.data
    (match o1 with
     | some k => stripLit k.data cs0
     | none => some cs0).bind fun cs1 =>
      (stripLit "interface".data (skipWS cs1)).bind fun cs2 =>
        (reqWS cs2).bind fun cs3 =>
          let (w, _) := takeWordRun cs3
          if w.isEmpty then none else some ⟨w⟩)

/-- C# method pattern: optional modifiers, then a greedy signature run
(which may include whitespace, so the split point backtracks from the
longest run), whitespace, a captured name and an opening parenthesis. -/
def csMethodMatch (line : String) : Option String :=
  ((kwOptions ["public", "private", "protected", "internal"]).flatMap
    (fun o1 => (kwOptions ["static", "virtual", "override", "async"]).map
      (fun o2 => (o1, o2)))).findSome? (fun p =>
    let cs0 := skipWS line.data
    (match p.1 with
     | some k => stripLit k.data cs0
     | none => some cs0).bind fun cs1 =>
      let cs2 := skipWS cs1
      (match p.2 with
       | some k => stripLit k.data cs2
       | none => some cs2).bind fun cs3 =>
        let cs4 := skipWS cs3
        let maxRun := cs4.takeWhile (fun c => csMethodChar c)
        (List.range maxRun.length).findSome? (fun j =>
          spWordParen (cs4.drop (maxRun.length - j))))

/-- An emitted C# chunk. -/
def mkCsChunk (filePath : String) (top : CsCons) (endIdx : Nat)
    (chunkContent : String) : ASTChunk :=
  { id := filePath ++ ":" ++ natStr (top.start + 1) ++ "-" ++ natStr endIdx,
    filePath := filePath,
    startLine := top.start + 1,
    endLine := endIdx,
    content := chunkContent,
    language := "csharp",
    chunkType := top.type,
    name := top.name,
    domainHints := some (inferDomainHints top.name none [] chunkContent) }

/-- The closing loop of chunkCSharp: pop every construct whose brace level
has been reached, emitting those above the minimum size (innermost
first). -/
def csPopLoop (cfg : ASTChunkerConfig) (lines : List String) (filePath : String)
    (i : Nat) (braceCount : Int) :
    List CsCons → List CsCons × List ASTChunk
  | [] => ([], [])
  | top :: restStack =>
      if braceCount ≤ top.braceLevel then
        let chunkContent := joinWith "\n" (jsSlice lines top.start (i + 1))
        let emitted :=
          if cfg.minChunkSize ≤ strLen chunkContent then
            [mkCsChunk filePath top (i + 1) chunkContent]
          else []
        let (s2, e2) := csPopLoop cfg lines filePath i braceCount restStack
        (s2, emitted ++ e2)
      else (top :: restStack, [])

/-- The scanning loop of ASTChunker.chunkCSharp.  The construct stack is
kept top-first; pushes record the brace level before the update of the
line, pops happen after it. -/
def csLoop (cfg : ASTChunkerConfig) (lines : List String) (filePath : String) :
    Nat → List String → Int → List CsCons → List ASTChunk
  | _, [], _, _ => []
  | i, line :: rest, braceCount, stack =>
      let opens : Int := countChar '{' line
      let closes : Int := countChar '}' line
      let stack1 :=
        match csNamespaceMatch line with
        | some n => ({ start := i, name := n, type := "module", braceLevel := braceCount } : CsCons) :: stack
        | none => stack
      let stack2 :=
        match csClassMatch line with
        | some n => ({ start := i, name := n, type := "class", braceLevel := braceCount } : CsCons) :: stack1
        | none => stack1
      let stack3 :=
        match csInterfaceMatch line with
        | some n => ({ start := i, name := n, type := "interface", braceLevel := braceCount } : CsCons) :: stack2
        | none => stack2
      let stack4 :=
        match (if containsSub line ";" then none else csMethodMatch line) with
        | some n => ({ start := i, name := n, type := "method", braceLevel := braceCount } : CsCons) :: stack3
        | none => stack3
      let braceCount2 := braceCount + opens - closes
      let popped := csPopLoop cfg lines filePath i braceCount2 stack4
      popped.2 ++ csLoop cfg lines filePath (i + 1) rest braceCount2 popped.1

/-- ASTChunker.chunkCSharp. -/
def chunkCSharp (cfg : ASTChunkerConfig) (filePath content : String) : List ASTChunk :=
  let lines := jsLines content
  let chunks := csLoop cfg lines filePath 0 lines 0 []
  if chunks.isEmpty then [createWholeFileChunk filePath content "csharp" none] else chunks

/-- ASTChunker.chunkJavaLike: the C# chunker with the language tag
replaced. -/
def chunkJavaLike (cfg : ASTChunkerConfig) (filePath content language : String) :
    List ASTChunk :=
  (chunkCSharp cfg filePath content).map (fun c => { c with language := language })

/-! ## Go pattern chunker -/

/-- A pending Go construct. -/
structure GoCur where
  start : Nat
  name : String
  type : String
deriving DecidableEq

/-- Go function pattern: func keyword, optional parenthesized receiver
followed by whitespace, a captured name and an opening parenthesis. -/
def matchGoFuncDecl (line : String) : Option String :=
  (stripLit "func".data line.data).bind fun cs =>
    (reqWS cs).bind fun cs2 =>
      let afterRecv :=
        match cs2 with
        | '(' :: rest =>
            let run := rest.takeWhile (fun c => wordChar c || jsWS c || c = '*')
            if run.isEmpty then none
            else
              match rest.drop run.length with
              | ')' :: r2 => reqWS r2
              | _ => none
        | _ => none
      let cs3 := afterRecv.getD cs2
      let (w, rest) := takeWordRun cs3
      if w.isEmpty then none
      else
        match skipWS rest with
        | '(' :: _ => some ⟨w⟩
        | _ => none

/-- Go type pattern: type keyword, captured name, struct or interface,
an opening brace. -/
def matchGoType (line : String) : Option (String × String) :=
  (stripLit "type".data line.data).bind fun cs =>
    (reqWS cs).bind fun cs2 =>
      let (w, rest) := takeWordRun cs2
      if w.isEmpty then none
      else
        (reqWS rest).bind fun cs3 =>
          let tryKind := fun (kw : String) =>
            (stripLit kw.data cs3).bind fun cs4 =>
              match skipWS cs4 with
              | '{' :: _ => some (String.mk w, kw)
              | _ => none
          (tryKind "struct").orElse fun _ => tryKind "interface"

/-- ASTChunker.finalizeGoChunk. -/
def finalizeGoChunk (lines : List String) (filePath : String) (cur : GoCur)
    (endIdx : Nat) : ASTChunk :=
  let content := joinWith "\n" (jsSlice lines cur.start endIdx)
  { id := filePath ++ ":" ++ natStr (cur.start + 1) ++ "-" ++ natStr endIdx,
    filePath := filePath,
    startLine := cur.start + 1,
    endLine := endIdx,
    content := content,
    language := "go",
    chunkType := cur.type,
    name := cur.name,
    domainHints := some (inferDomainHints cur.name none [] content) }

/-- The scanning loop of ASTChunker.chunkGo. -/
def goLoop (lines : List String) (filePath : String) :
    Nat → List String → Option GoCur → Int → List ASTChunk
  | _, [], cur, _ =>
      match cur with
      | some c => [finalizeGoChunk lines filePath c lines.length]
      | none => []
  | i, line :: rest, cur, braceCount =>
      let opens : Int := countChar '{' line
      let closes : Int := countChar '}' line
      let funcStep :=
        match matchGoFuncDecl line with
        | some n =>
            if braceCount = 0 then
              (some ({ start := i, name := n, type := "function" } : GoCur),
               match cur with
               | some c => [finalizeGoChunk lines filePath c i]
               | none => [])
            else (cur, [])
        | none => (cur, [])
      let typeStep :=
        match matchGoType line with
        | some (n, kindStr) =>
            if braceCount = 0 then
              (some ({ start := i, name := n,
                       type := if kindStr = "struct" then "model" else "interface" } : GoCur),
               match funcStep.1 with
               | some c => funcStep.2 ++ [finalizeGoChunk lines filePath c i]
               | none => funcStep.2)
            else funcStep
        | none => funcStep
      let braceCount2 := braceCount + opens - closes
      match typeStep.1 with
      | some c =>
          if braceCount2 = 0 && decide (0 < closes) then
            typeStep.2 ++ [finalizeGoChunk lines filePath c (i + 1)] ++
              goLoop lines filePath (i + 1) rest none braceCount2
          else typeStep.2 ++ goLoop lines filePath (i + 1) rest (some c) braceCount2
      | none => typeStep.2 ++ goLoop lines filePath (i + 1) rest none braceCount2

/-- ASTChunker.chunkGo. -/
def chunkGo (filePath content : String) : List ASTChunk :=
  let lines := jsLines content
  let chunks := goLoop lines filePath 0 lines none 0
  if chunks.isEmpty then [createWholeFileChunk filePath content "go" none] else chunks

/-! ## Language dispatch -/

/-- ASTChunker.getLanguage: the extension-to-language map. -/
def getLanguage (ext : String) : String :=
  if ext = ".ts" then "typescript"
  else if ext = ".tsx" then "tsx"
  else if ext = ".js" then "javascript"
  else if ext = ".jsx" then "jsx"
  else if ext = ".mjs" then "javascript"
  else if ext = ".cjs" then "javascript"
  else if ext = ".py" then "python"
  else if ext = ".pyx" then "python"
  else if ext = ".go" then "go"
  else if ext = ".rs" then "rust"
  else if ext = ".java" then "java"
  else if ext = ".kt" then "kotlin"
  else if ext = ".scala" then "scala"
  else if ext = ".rb" then "ruby"
  else if ext = ".php" then "php"
  else if ext = ".c" then "c"
  else if ext = ".cpp" then "cpp"
  else if ext = ".h" then "c"
  else if ext = ".hpp" then "cpp"
  else if ext = ".cs" then "csharp"
  else if ext = ".swift" then "swift"
  else if ext = ".vue" then "vue"
  else if ext = ".svelte" then "svelte"
  else "unknown"

/-- ASTChunker.chunkFile after the file read: dispatch on the detected
language (the readFileSync of the source is modelled by receiving the file
content; the external TypeScript parse is the parse argument). -/
def chunkFileContent (cfg : ASTChunkerConfig) (parse : String → TsNode)
    (filePath content : String) : List ASTChunk :=
  let ext := jsLower (extname filePath)
  let language := getLanguage ext
  if language = "typescript" || language = "javascript" || language = "tsx" ||
      language = "jsx" then
    chunkTypeScript cfg parse filePath content language
  else if language = "python" then chunkPython filePath content
  else if language = "csharp" then chunkCSharp cfg filePath content
  else if language = "go" then chunkGo filePath content
  else if language = "java" || language = "kotlin" then
    chunkJavaLike cfg filePath content language
  else chunkGeneric cfg filePath content language

end ASTChunker

/-! ## RAG system (src/rag/index.ts) -/

namespace RAGSystem

/-- The effective configuration of the RAGSystem constructor (the defaults
are merged over the caller config). -/
structure RAGConfig where
  chunkSize : Nat := 1500
  chunkOverlap : Nat := 200
deriving DecidableEq

/-- interface CodeChunk of src/rag/index.ts. -/
structure CodeChunk where
  id : String
  filePath : String
  startLine : Nat
  endLine : Nat
  content : String
  language : String
deriving DecidableEq

/-- RAGSystem.getLanguage: the extension map of the RAG system (empty
string as the default). -/
def getLanguage (ext : String) : String :=
  if ext = ".ts" then "typescript"
  else if ext = ".tsx" then "tsx"
  else if ext = ".js" then "javascript"
  else if ext = ".jsx" then "jsx"
  else if ext = ".py" then "python"
  else if ext = ".go" then "go"
  else if ext = ".rs" then "rust"
  else if ext = ".java" then "java"
  else if ext = ".kt" then "kotlin"
  else if ext = ".rb" then "ruby"
  else if ext = ".php" then "php"
  else if ext = ".c" then "c"
  else if ext = ".cpp" then "cpp"
  else if ext = ".h" then "c"
  else if ext = ".hpp" then "cpp"
  else if ext = ".cs" then "csharp"
  else if ext = ".swift" then "swift"
  else if ext = ".vue" then "vue"
  else if ext = ".svelte" then "svelte"
  else if ext = ".json" then "json"
  else if ext = ".yaml" then "yaml"
  else if ext = ".yml" then "yaml"
  else if ext = ".md" then "markdown"
  else ""

/-- The inner while of RAGSystem.chunkFile: extend the chunk end while
below the configured character budget (fuel-based; the fuel passed by the
callers exceeds the line count, which bounds the iterations). -/
def advanceEnd (lines : List String) (chunkSize : Nat) :
    Nat → Nat → Nat → Nat
  | 0, endLine, _ => endLine
  | fuel + 1, endLine, charCount =>
      if endLine < lines.length && charCount < chunkSize then
        advanceEnd lines chunkSize fuel (endLine + 1)
          (charCount + strLen (lines.getD endLine "") + 1)
      else endLine

/-- The look-ahead of RAGSystem.chunkFile: move the end to just after the
first logical boundary (empty line, closing brace, closing brace and
semicolon, or the end keyword) within the next ten lines. -/
def boundaryAdjust (lines : List String) (endLine : Nat) : Nat :=
  let lookAhead := min (endLine + 10) lines.length
  match (List.range' endLine (lookAhead - endLine)).find? (fun i =>
    let t := jsTrim (lines.getD i "")
    t = "" || t = "\x7d" || t = "\x7d;" || t = "end") with
  | some i => i + 1
  | none => endLine

/-- One iteration of the chunking loop of RAGSystem.chunkFile: the emitted
chunk (none for tiny chunks) and the next start line.  The next start
steps back by the overlap unless that would fail to make progress, in
which case it resets to the chunk end (the subtraction is a truncated Nat
subtraction; the progress comparison coincides with the JS comparison on
possibly negative values). -/
def stepChunk (cfg : RAGConfig) (lines : List String) (filePath language : String)
    (startLine : Nat) : Option CodeChunk × Nat :=
  let e1 := advanceEnd lines cfg.chunkSize (lines.length + 1) startLine 0
  let e2 := boundaryAdjust lines e1
  let chunkContent := joinWith "\n" (jsSlice lines startLine e2)
  let chunk? :=
    if 50 < strLen (jsTrim chunkContent) then
      some { id := filePath ++ ":" ++ natStr (startLine + 1) ++ "-" ++ natStr e2,
             filePath := filePath,
             startLine := startLine + 1,
             endLine := e2,
             content := chunkContent,
             language := language }
    else none
  let raw := e2 - cfg.chunkOverlap / 50
  let next := if raw ≤ startLine then e2 else raw
  (chunk?, next)

/-- The chunking loop of RAGSystem.chunkFile (fuel-based; the fuel the
callers pass suffices whenever the chunk size is positive, which is the
termination claim proved below). -/
def chunkLoop (cfg : RAGConfig) (lines : List String) (filePath language : String) :
    Nat → Nat → List CodeChunk
  | 0, _ => []
  | fuel + 1, start =>
      if lines.length ≤ start then []
      else
        let step := stepChunk cfg lines filePath language start
        (match step.1 with
         | some c => [c]
         | none => []) ++ chunkLoop cfg lines filePath language fuel step.2

/-- RAGSystem.chunkFile after the file read: simple line-based chunking
with overlap. -/
def ragChunkCore (cfg : RAGConfig) (filePath content : String) : List CodeChunk :=
  let lines := jsLines content
  let language := getLanguage (extname filePath)
  chunkLoop cfg lines filePath language (lines.length + 1) 0

/-- The outcome of a read performed by the engine.  The accessDenied
constructor is the distinct rejection the specification describes; the
theorems below settle whether the code ever produces it. -/
inductive ChunkFileOutcome where
  | ok (chunks : List CodeChunk)
  | readFailed
  | accessDenied
deriving DecidableEq

/-- RAGSystem.chunkFile including its read: join the repository path with
the file path and read the file (readFileSync throwing for a missing file
is the readFailed outcome).  No path check of any kind is performed. -/
def chunkFile (fs : String → Option String) (cfg : RAGConfig)
    (repoPath filePath : String) : ChunkFileOutcome :=
  match fs (joinPath repoPath filePath) with
  | none => .readFailed
  | some content => .ok (ragChunkCore cfg filePath content)

/-! ### Fallback embeddings -/

/-- The fixed embedding dimension of the RAG system. -/
def embeddingDimension : Nat := 1024

/-- JS ToInt32: the coercion applied by the bitwise operators. -/
def jsToInt32 (n : Int) : Int := ((n + 2 ^ 31) % 2 ^ 32) - 2 ^ 31

/-- RAGSystem.simpleHash: the shift-and-subtract string hash with 32-bit
wrapping, made non-negative by Math.abs. -/
def simpleHash (s : String) : Nat :=
  (s.data.foldl (fun h c => jsToInt32 (jsToInt32 (h * 32) - h + c.toNat)) 0).natAbs

/-- The tokenization of generateSimpleEmbeddings: lower-case, replace
every character outside [a-z0-9_] by a space, split on whitespace and keep
tokens longer than two characters (the empty pieces a JS split on runs
produces are removed by the same length filter). -/
def ragTokens (text : String) : List String :=
  let replaced := (jsLower text).data.map (fun c =>
    if ('a' ≤ c && c ≤ 'z') || ('0' ≤ c && c ≤ '9') || c = '_' then c else ' ')
  ((splitCharsOn ' ' replaced).map String.mk).filter (fun w => 2 < strLen w)

/-- The hash bucket of one token. -/
def bucketOf (w : String) : Nat := simpleHash w % embeddingDimension

/-- The raw term-frequency vector of a text (exact counts; the JS number
array holds the same integers). -/
def countVector (text : String) : List Nat :=
  (ragTokens text).foldl
    (fun v w => v.set (bucketOf w) (v.getD (bucketOf w) 0 + 1))
    (List.replicate embeddingDimension 0)

/-- The squared L2 norm of the raw counts (computable side). -/
def sumSqN (v : List Nat) : Nat := (v.map (fun x => x * x)).sum

/-- RAGSystem.normalizeVector: divide by the L2 norm unless it is zero. -/
noncomputable def normalizeVector (v : List ℝ) : List ℝ :=
  let norm := Real.sqrt ((v.map (fun x => x * x)).sum)
  if norm = 0 then v else v.map (fun x => x / norm)

/-- The per-text body of RAGSystem.generateSimpleEmbeddings: the
term-frequency vector, L2-normalized. -/
noncomputable def generateSimpleEmbedding (text : String) : List ℝ :=
  normalizeVector ((countVector text).map (fun n => (Nat.cast n : ℝ)))

/-- RAGSystem.generateSimpleEmbeddings over a chunk batch. -/
noncomputable def generateSimpleEmbeddings (chunks : List CodeChunk) : List (List ℝ) :=
  chunks.map (fun c => generateSimpleEmbedding c.content)

/-- Dot product of two vectors. -/
noncomputable def dotR (v w : List ℝ) : ℝ := (List.zipWith (· * ·) v w).sum

/-- L2 norm of a vector. -/
noncomputable def l2norm (v : List ℝ) : ℝ := Real.sqrt ((v.map (fun x => x * x)).sum)

/-- Cosine similarity of two vectors (specification-side notion). -/
noncomputable def cosineSim (v w : List ℝ) : ℝ := dotR v w / (l2norm v * l2norm w)

/-! ### Index build, persistence, reload and search -/

/-- interface StoredMetadata (the metadata side table). -/
structure StoredMetadata where
  id : String
  filePath : String
  startLine : Nat
  endLine : Nat
  content : String
  language : String
deriving DecidableEq

/-- The metadata stored for one chunk (the duplication of the chunk fields
into the side table). -/
def toStoredMetadata (c : CodeChunk) : StoredMetadata :=
  { id := c.id, filePath := c.filePath, startLine := c.startLine,
    endLine := c.endLine, content := c.content, language := c.language }

/-- The in-memory engine state: the optional faiss index (modelled as the
list of stored vectors) and the integer-keyed metadata table in insertion
order. -/
structure RagState where
  index : Option (List (List ℝ))
  metadata : List (Nat × StoredMetadata)
  documentCount : Nat

/-- The persisted artifacts: index.faiss (the vector blob, modelled as the
vector list faiss-node would write and read back) and metadata.json (the
JSON object, whose keys are the stringified integers). -/
structure DiskStore where
  indexFile : Option (List (List ℝ)) := none
  metaFile : Option (List (String × StoredMetadata)) := none

/-- The build phase of RAGSystem.indexRepository after chunking and
embedding: with faiss available and a nonempty embedding list, normalize
and add every vector, fill the metadata table, and write both artifacts;
otherwise keep only the metadata (keyword mode) and write nothing.  The
zip makes explicit that the loop consumes embeddings and chunks at equal
indices (generateEmbeddings returns one vector per chunk). -/
noncomputable def indexRepositoryBuild (faissAvail : Bool) (chunks : List CodeChunk)
    (embeddings : List (List ℝ)) (prior : DiskStore) : RagState × DiskStore :=
  if faissAvail && !embeddings.isEmpty then
    let pairs := (embeddings.zip chunks).enum
    let vecs := (embeddings.zip chunks).map (fun p => normalizeVector p.1)
    let entries := pairs.map (fun p => (p.1, toStoredMetadata p.2.2))
    ({ index := some vecs, metadata := entries, documentCount := chunks.length },
     { indexFile := some vecs,
       metaFile := some (entries.map (fun e => (natStr e.1, e.2))) })
  else
    ({ index := none,
       metadata := chunks.enum.map (fun p => (p.1, toStoredMetadata p.2)),
       documentCount := chunks.length }, prior)

/-- The cached-index branch of RAGSystem.indexRepository: with faiss
available and both artifacts present, read the index back, parse the
metadata keys with parseInt, and set the document count from the table
size. -/
def indexRepositoryLoad (faissAvail : Bool) (d : DiskStore) : Option RagState :=
  if faissAvail then
    match d.indexFile, d.metaFile with
    | some idx, some mf =>
        some { index := some idx,
               metadata := mf.map (fun e => (keyVal e.1, e.2)),
               documentCount := mf.length }
    | _, _ => none
  else none

/-- RAGSystem.isTestFile (each regex is a literal substring test). -/
def isTestFile (filePath : String) : Bool :=
  containsSub filePath ".test." || containsSub filePath ".spec." ||
    containsSub filePath "_test." || containsSub filePath "test_" ||
    containsSub filePath "__tests__" || containsSub filePath "tests/" ||
    containsSub filePath ".stories." || containsSub filePath "__mocks__"

/-- interface SearchOptions. -/
structure SearchOptions where
  maxResults : Option Nat := none
  fileTypes : Option (List String) := none
  excludeTests : Bool := false

/-- interface SearchResult: the chunk metadata plus a score. -/
structure SearchResult where
  meta : StoredMetadata
  score : ℝ

/-- options.maxResults with the JS truthiness default of 10. -/
def effMaxResults (opts : SearchOptions) : Nat :=
  match opts.maxResults with
  | some m => if m = 0 then 10 else m
  | none => 10

/-- The post-filters of RAGSystem.search (test exclusion and file-type
allow list). -/
def filtersReject (opts : SearchOptions) (m : StoredMetadata) : Bool :=
  (opts.excludeTests && isTestFile m.filePath) ||
    (match opts.fileTypes with
     | some exts => !(exts.any (fun e => jsEndsWith m.filePath e))
     | none => false)

/-- faiss IndexFlatIP search, modelled as exact: score every stored vector
by inner product with the query, sort descending (stable) and take k. -/
noncomputable def faissSearch (vecs : List (List ℝ)) (q : List ℝ) (k : Nat) :
    List (Nat × ℝ) :=
  ((vecs.enum.map (fun p => (p.1, dotR q p.2))).insertionSort
    (fun a b => b.2 ≤ a.2)).take k

/-- The result-collection loop of the faiss branch of RAGSystem.search:
look each label up, apply the filters, stop once maxResults results are
collected. -/
noncomputable def collectResults (metadata : List (Nat × StoredMetadata))
    (opts : SearchOptions) (maxResults : Nat) :
    List (Nat × ℝ) → Nat → List SearchResult
  | [], _ => []
  | (label, score) :: rest, count =>
      match metadata.lookup label with
      | none => collectResults metadata opts maxResults rest count
      | some m =>
          if filtersReject opts m then collectResults metadata opts maxResults rest count
          else
            let r : SearchResult := { meta := m, score := score }
            if maxResults ≤ count + 1 then [r]
            else r :: collectResults metadata opts maxResults rest (count + 1)

/-- JS q.split on a whitespace regex: the maximal non-whitespace runs,
with an empty piece at either boundary when the string starts or ends with
whitespace (and a single empty piece for the empty string). -/
def jsSplitWhitespace (s : String) : List String :=
  match s.data with
  | [] => [""]
  | c :: rest =>
      let runs := ((splitCharsOn ' ' ((c :: rest).map (fun x => if jsWS x then ' ' else x))).filter
        (fun l => !l.isEmpty)).map String.mk
      (if jsWS c then [""] else []) ++ runs ++
        (if jsWS ((c :: rest).getLast (by simp)) then [""] else [])

/-- Non-overlapping occurrence count of a pattern (fuel on the haystack). -/
def countOccAux (pat : List Char) : Nat → List Char → Nat
  | 0, _ => 0
  | _ + 1, [] => 0
  | fuel + 1, c :: t =>
      if charsStartWith (c :: t) pat then 1 + countOccAux pat fuel ((c :: t).drop pat.length)
      else countOccAux pat fuel t

/-- The per-term match count of the keyword fallback: a global regex built
from the term, counted over the lower-cased content.  Terms are modelled
as literal text (no metacharacters); the empty term matches at every
position, one more than the content length. -/
def countOccurrences (pat content : String) : Nat :=
  if pat.data.isEmpty then content.data.length + 1
  else countOccAux pat.data (content.data.length + 1) content.data

/-- The keyword-fallback branch of RAGSystem.search: sum the per-term
counts over each chunk, drop zero scores, sort descending (stable) and
truncate. -/
noncomputable def fallbackSearch (metadata : List (Nat × StoredMetadata))
    (q : String) (opts : SearchOptions) (maxResults : Nat) : List SearchResult :=
  let queryTerms := jsSplitWhitespace (jsLower q)
  let scored := metadata.filterMap (fun e =>
    let m := e.2
    if filtersReject opts m then none
    else
      let content := jsLower m.content
      let score := (queryTerms.map (fun t => countOccurrences t content)).sum
      if 0 < score then some (m, score) else none)
  ((scored.insertionSort (fun a b => b.2 ≤ a.2)).take maxResults).map
    (fun p => { meta := p.1, score := (p.2 : ℝ) })

/-- RAGSystem.search as a function of the state components it reads: the
empty-metadata early return, the query embedding, and one of the two
branches (the index is present exactly when faiss was available at build
time). -/
noncomputable def searchCore (index : Option (List (List ℝ)))
    (metadata : List (Nat × StoredMetadata)) (q : String) (opts : SearchOptions) :
    List SearchResult :=
  let maxResults := effMaxResults opts
  if metadata.isEmpty then []
  else
    let qE := generateSimpleEmbedding q
    match index with
    | some vecs =>
        collectResults metadata opts maxResults
          (faissSearch vecs (normalizeVector qE) (maxResults * 2)) 0
    | none => fallbackSearch metadata q opts maxResults

/-- RAGSystem.search on an engine state. -/
noncomputable def searchState (st : RagState) (q : String) (opts : SearchOptions) :
    List SearchResult :=
  searchCore st.index st.metadata q opts

end RAGSystem

/-! ## The analyze_code_structure tool handler -/

namespace AgentTools

/-- The outcome of the analyze_code_structure handler up to its read.  The
accessDenied constructor is the rejection the specification describes; the
handler of the source never produces it. -/
inductive AnalyzeOutcome where
  | fileNotFound
  | analyzed (content : String)
  | accessDenied
deriving DecidableEq

/-- The path resolution, existence check and read of the
analyze_code_structure tool handler: join the repository path with the
argument path; report file-not-found when the file does not exist, and
otherwise read it and proceed to the analysis.  The per-line regex summary
computed from the content afterwards has no bearing on access behaviour
and is not modelled. -/
def analyzeCodeStructureRead (fs : String → Option String)
    (repoPath filePath : String) : AnalyzeOutcome :=
  match fs (joinPath repoPath filePath) with
  | none => .fileNotFound
  | some content => .analyzed content

end AgentTools

/-! ## Specification-side notions used by the claims -/

/-- The exact joined source lines of the range [a, b] (1-indexed,
inclusive) of a file — the round-trip content the specification demands of
a chunk. -/
def linesRange (content : String) (a b : Nat) : String :=
  joinWith "\n" (jsSlice (jsLines content) (a - 1) b)

/-- The language tags routed to the TypeScript structural path. -/
def tsFamily (lang : String) : Bool :=
  lang = "typescript" || lang = "javascript" || lang = "tsx" || lang = "jsx"

namespace ASTChunker

/-- The claim-side score of one category: 3 for each keyword matched in
the name, 2 for each matched in the documentation, 1 otherwise, summed
over the keywords occurring in the search text. -/
def specCategoryScore (name : String) (documentation : Option String)
    (searchText : String) (kws : List String) : Nat :=
  ((kws.filter (fun k => containsSub searchText k)).map (fun k =>
    if containsSub (jsLower name) k then 3
    else match documentation with
         | some d => if containsSub (jsLower d) k then 2 else 1
         | none => 1)).sum

/-- The source field the code actually computes: decided from the first
matched keyword alone. -/
def specFirstMatchedSource (name : String) (documentation : Option String)
    (matched : List String) : String :=
  if containsSub (jsLower name) (matched.headD "") then "name"
  else match documentation with
       | some d => if containsSub (jsLower d) (matched.headD "") then "documentation" else "content"
       | none => "content"

/-- The source field the claim describes: the highest-weight source among
name, documentation and content in which ANY matched keyword occurs. -/
def specHighestWeightSource (name : String) (documentation : Option String)
    (matched : List String) : String :=
  if matched.any (fun k => containsSub (jsLower name) k) then "name"
  else if matched.any (fun k =>
      (documentation.map (fun d => containsSub (jsLower d) k)).getD false) then "documentation"
  else "content"

/-- The extended context path of a nested visit (the newContext of the
visit closure). -/
def extendCtx (contextPath : Option String) (name : String) : String :=
  match contextPath with
  | some cp => cp ++ " > " ++ name
  | none => name

end ASTChunker

/-! ## Concrete fixtures for the counterexamples and witnesses -/

namespace Fixtures

open ASTChunker RAGSystem

/-- A small chunker configuration (the configuration is a constructor
input of ASTChunker). -/
def smallCfg : ASTChunkerConfig := { maxChunkSize := 100, minChunkSize := 1 }

/-- A five-line Rust file for the generic fallback path. -/
def genContent : String := "pub fn aaa()\n  body\n\npub fn bbb()\n  more"

/-- The first chunk the generic fallback extracts from genContent. -/
def genChunk0 : ASTChunk :=
  (chunkGeneric smallCfg "x.rs" genContent "rust").headD emptyASTChunk

/-- A small Python file with two top-level functions. -/
def pyContent : String := "def foo():\n    return 1\n\ndef bar():\n    return 2"

/-- The first chunk the Python path extracts from pyContent. -/
def pyChunk0 : ASTChunk := (chunkPython "m.py" pyContent).headD emptyASTChunk

/-- A TypeScript file consisting of one long comment: its parse tree is a
source file with no import declarations and no declaration statements
(comments are trivia). -/
def tsCommentContent : String := "// aaaaaaaaaaaaaaaaaaaaaaaaaaaaaaaaaaaa"

/-- The parse of tsCommentContent: a bare source-file node. -/
def tsCommentParse : String → TsNode :=
  fun _ => TsNode.mk .sourceFile 0 0 none [] [] [] .noInit true false false none []

/-- A configuration whose maximum chunk size the comment file exceeds. -/
def tinyMaxCfg : ASTChunkerConfig := { maxChunkSize := 10, minChunkSize := 100 }

/-- Three low-confidence hints and one high-confidence hint for the
merger counterexample. -/
def hLog : DomainHint :=
  { category := "logging", confidence := jsMinQ (mkRat 1 10) 1, source := "content", keywords := ["log"] }

def hSearch : DomainHint :=
  { category := "search", confidence := jsMinQ (mkRat 1 10) 1, source := "content", keywords := ["find"] }

def hCache : DomainHint :=
  { category := "caching", confidence := jsMinQ (mkRat 1 10) 1, source := "content", keywords := ["memo"] }

def hAuth : DomainHint :=
  { category := "authentication", confidence := 1, source := "name", keywords := ["auth", "login", "token"] }

/-- Two undersized chunks whose combined size reaches twice the minimum of
mergeCfg; the first carries three weak hints, the second one strong hint. -/
def mergeC1 : ASTChunk :=
  { id := "f.ts:1-1", filePath := "f.ts", startLine := 1, endLine := 1, content := "abc",
    language := "typescript", chunkType := "function", name := "alpha",
    domainHints := some [hLog, hSearch, hCache] }

def mergeC2 : ASTChunk :=
  { id := "f.ts:2-2", filePath := "f.ts", startLine := 2, endLine := 2, content := "de",
    language := "typescript", chunkType := "function", name := "beta",
    domainHints := some [hAuth] }

/-- A chunk of at least twice the minimum size of mergeCfg. -/
def mergeBig : ASTChunk :=
  { id := "f.ts:3-3", filePath := "f.ts", startLine := 3, endLine := 3, content := "abcdef",
    language := "typescript", chunkType := "function", name := "gamma" }

def mergeCfg : ASTChunkerConfig := { minChunkSize := 2 }

/-- The parse tree of a 73-character class with one method, exceeding 70
percent of the 100-character maximum of smallCfg. -/
def methodNode : TsNode :=
  TsNode.mk .methodDecl 1 3 (some "login") [] [] [] .noInit true false false none []

def classNode : TsNode :=
  TsNode.mk .classDecl 0 4 (some "FooHelper") [] [] [] .noInit true true false none [methodNode]

def sfNode : TsNode :=
  TsNode.mk .sourceFile 0 4 none [] [] [] .noInit true false false none [classNode]

/-- The lines of the class file of classNode. -/
def clsLines : List String :=
  ["class FooHelper \x7b", "  login() \x7b",
   "    return 1 + 2 + 3 + 4 + 5 + 6 + 7;", "  \x7d", "\x7d"]

/-- The chunk the node processor produces for classNode. -/
def clsParent : ASTChunk :=
  (processTypeScriptNode smallCfg clsLines "a.ts" "typescript" none none classNode).getD
    emptyASTChunk

/-- A default hint (used only to name the head of a concrete hint list). -/
def emptyHint : DomainHint := { category := "", confidence := 0, source := "", keywords := [] }

/-- The first hint returned for name login and body text auth. -/
def c6hint : DomainHint := (inferDomainHints "login" none [] "auth").headD emptyHint

/-- The content of a file outside the repository root. -/
def secretContent : String :=
  "root:x:0:0:root:/root:/bin/bash\ndaemon:x:1:1:daemon:/usr/sbin:/usr/sbin/nologin"

/-- A file system holding only a file outside the repository root /repo. -/
def secretFs : String → Option String :=
  fun p => if p = "/etc/passwd" then some secretContent else none

/-- The chunk the RAG chunker produces from the outside file. -/
def secretChunk : RAGSystem.CodeChunk :=
  { id := "../etc/passwd:1-2", filePath := "../etc/passwd", startLine := 1, endLine := 2,
    content := secretContent, language := "" }

end Fixtures

/-! ## Helper lemmas for the RAG chunking loop -/

namespace RAGSystem

theorem advanceEnd_ge (lines : List String) (cs : Nat) :
    ∀ fuel e cc, e ≤ advanceEnd lines cs fuel e cc := by
  intro fuel
  induction fuel with
  | zero => intro e cc; exact Nat.le_refl e
  | succ f ih =>
      intro e cc
      simp only [advanceEnd]
      split
      · exact Nat.le_trans (Nat.le_succ e) (ih (e + 1) _)
      · exact Nat.le_refl e

theorem boundaryAdjust_ge (lines : List String) (e : Nat) : e ≤ boundaryAdjust lines e := by
  simp only [boundaryAdjust]
  split
  next i hfind =>
    have hmem := List.mem_of_find?_eq_some hfind
    have := (List.mem_range'_1.mp hmem).1
    omega
  next => exact Nat.le_refl e

theorem stepChunk_snd (cfg : RAGConfig) (lines : List String) (fp lang : String) (s : Nat) :
    (stepChunk cfg lines fp lang s).2 =
      (if boundaryAdjust lines (advanceEnd lines cfg.chunkSize (lines.length + 1) s 0) -
          cfg.chunkOverlap / 50 ≤ s then
        boundaryAdjust lines (advanceEnd lines cfg.chunkSize (lines.length + 1) s 0)
      else
        boundaryAdjust lines (advanceEnd lines cfg.chunkSize (lines.length + 1) s 0) -
          cfg.chunkOverlap / 50) := rfl

theorem stepChunk_progress (cfg : RAGConfig) (lines : List String) (fp lang : String)
    (start : Nat) (hcs : 0 < cfg.chunkSize) (hlt : start < lines.length) :
    start < (stepChunk cfg lines fp lang start).2 := by
  have h1 : advanceEnd lines cfg.chunkSize (lines.length + 1) start 0 =
      advanceEnd lines cfg.chunkSize lines.length (start + 1)
        (0 + strLen (lines.getD start "") + 1) := by
    simp only [advanceEnd]
    rw [if_pos]
    simp [hlt, hcs]
  have he1 : start + 1 ≤ advanceEnd lines cfg.chunkSize (lines.length + 1) start 0 := by
    rw [h1]
    exact advanceEnd_ge lines cfg.chunkSize lines.length (start + 1) _
  have he2 := boundaryAdjust_ge lines (advanceEnd lines cfg.chunkSize (lines.length + 1) start 0)
  rw [stepChunk_snd]
  split <;> omega

theorem chunkLoop_fuel_irrelevant (cfg : RAGConfig) (lines : List String) (fp lang : String)
    (hcs : 0 < cfg.chunkSize) :
    ∀ f1 f2 start, lines.length - start ≤ f1 → lines.length - start ≤ f2 →
      chunkLoop cfg lines fp lang f1 start = chunkLoop cfg lines fp lang f2 start := by
  intro f1
  induction f1 with
  | zero =>
      intro f2 start h1 h2
      have hle : lines.length ≤ start := by omega
      cases f2 with
      | zero => rfl
      | succ k => simp [chunkLoop, hle]
  | succ f ih =>
      intro f2 start h1 h2
      by_cases hse : lines.length ≤ start
      · cases f2 with
        | zero => simp [chunkLoop, hse]
        | succ k => simp [chunkLoop, hse]
      · push_neg at hse
        cases f2 with
        | zero => omega
        | succ k =>
            have hprog := stepChunk_progress cfg lines fp lang start hcs hse
            simp only [chunkLoop, if_neg (Nat.not_le.mpr hse)]
            congr 1
            exact ih k _ (by omega) (by omega)

end RAGSystem

/-! ## C9: directory-traversal rejection -/

/-- C9 counterexample: a path that resolves outside the repository root is
not rejected — RAGSystem.chunkFile reads the outside file and returns its
chunk, and the analyze_code_structure handler reads and analyzes it, with
no access-denied error anywhere. -/
theorem C9_counterexample :
    pathOutside "/repo" (joinPath "/repo" "../etc/passwd") = true ∧
    RAGSystem.chunkFile Fixtures.secretFs {} "/repo" "../etc/passwd" =
      .ok [Fixtures.secretChunk] ∧
    AgentTools.analyzeCodeStructureRead Fixtures.secretFs "/repo" "../etc/passwd" =
      .analyzed Fixtures.secretContent :=
  ⟨by decide, by decide, by decide⟩

/-- C9 amended: neither read path checks the resolved path against the
repository root.  Whenever the joined path exists, chunking reads and
chunks it and analyze_code_structure reads and analyzes it — for any file
path argument, including ones resolving outside the root — and neither
ever produces the access-denied rejection the specification describes. -/
theorem C9_reads_unchecked :
    (∀ (fs : String → Option String) (cfg : RAGSystem.RAGConfig) (repo fp content : String),
        fs (joinPath repo fp) = some content →
        RAGSystem.chunkFile fs cfg repo fp = .ok (RAGSystem.ragChunkCore cfg fp content) ∧
        AgentTools.analyzeCodeStructureRead fs repo fp = .analyzed content) ∧
    (∀ (fs : String → Option String) (cfg : RAGSystem.RAGConfig) (repo fp : String),
        RAGSystem.chunkFile fs cfg repo fp ≠ .accessDenied) ∧
    (∀ (fs : String → Option String) (repo fp : String),
        AgentTools.analyzeCodeStructureRead fs repo fp ≠ .accessDenied) := by
  refine ⟨?_, ?_, ?_⟩
  · intro fs cfg repo fp content h
    constructor
    · simp [RAGSystem.chunkFile, h]
    · simp [AgentTools.analyzeCodeStructureRead, h]
  · intro fs cfg repo fp
    simp only [RAGSystem.chunkFile]
    cases fs (joinPath repo fp) <;> simp
  · intro fs repo fp
    simp only [AgentTools.analyzeCodeStructureRead]
    cases fs (joinPath repo fp) <;> simp

/-- C9 witness: the amended theorem applied to the outside file of the
counterexample. -/
theorem C9_witness :
    Fixtures.secretFs (joinPath "/repo" "../etc/passwd") = some Fixtures.secretContent ∧
    (RAGSystem.chunkFile Fixtures.secretFs {} "/repo" "../etc/passwd" =
        .ok (RAGSystem.ragChunkCore {} "../etc/passwd" Fixtures.secretContent) ∧
      AgentTools.analyzeCodeStructureRead Fixtures.secretFs "/repo" "../etc/passwd" =
        .analyzed Fixtures.secretContent) :=
  ⟨by decide, C9_reads_unchecked.1 Fixtures.secretFs {} "/repo" "../etc/passwd"
    Fixtures.secretContent (by decide)⟩

/-! ## C10: termination of the line-based chunking loop -/

/-- C10: the chunking loop of RAGSystem.chunkFile terminates: with a
positive chunk size, each iteration strictly increases the start line
(the overlap step is overridden by a reset to the strictly greater chunk
end whenever it would fail to make progress), and hence the loop is
independent of any fuel bound of at least the remaining line count — it
completes within lines.length iterations. -/
theorem C10_chunk_loop_terminates :
    (∀ (cfg : RAGSystem.RAGConfig) (lines : List String) (fp lang : String) (start : Nat),
        0 < cfg.chunkSize → start < lines.length →
        start < (RAGSystem.stepChunk cfg lines fp lang start).2) ∧
    (∀ (cfg : RAGSystem.RAGConfig) (lines : List String) (fp lang : String)
        (f1 f2 start : Nat), 0 < cfg.chunkSize →
        lines.length - start ≤ f1 → lines.length - start ≤ f2 →
        RAGSystem.chunkLoop cfg lines fp lang f1 start =
          RAGSystem.chunkLoop cfg lines fp lang f2 start) :=
  ⟨fun cfg lines fp lang start hcs hlt =>
      RAGSystem.stepChunk_progress cfg lines fp lang start hcs hlt,
   fun cfg lines fp lang f1 f2 start hcs h1 h2 =>
      RAGSystem.chunkLoop_fuel_irrelevant cfg lines fp lang hcs f1 f2 start h1 h2⟩

/-- C10 witness: one concrete step of the loop makes progress. -/
theorem C10_witness :
    0 < ({} : RAGSystem.RAGConfig).chunkSize ∧ (0 : Nat) < (["abc", "de"] : List String).length ∧
    0 < (RAGSystem.stepChunk {} ["abc", "de"] "f.txt" "" 0).2 :=
  ⟨by decide, by decide,
   C10_chunk_loop_terminates.1 {} ["abc", "de"] "f.txt" "" 0 (by decide) (by decide)⟩

/-! ## C3: persistence round trip -/

/-- C3: building the index with faiss available, persisting it, and
reloading it from the store (no embeddings are recomputed: the reload uses
the stored vectors), then searching, returns exactly the same ranked
results — ids and scores — as searching the freshly built in-memory state,
for every query and option set. -/
theorem C3_persist_reload_search (chunks : List RAGSystem.CodeChunk) (e : List ℝ)
    (es : List (List ℝ)) (q : String) (opts : RAGSystem.SearchOptions)
    (prior : RAGSystem.DiskStore) :
    (RAGSystem.indexRepositoryLoad true
        (RAGSystem.indexRepositoryBuild true chunks (e :: es) prior).2).map
      (fun st => RAGSystem.searchState st q opts) =
    some (RAGSystem.searchState (RAGSystem.indexRepositoryBuild true chunks (e :: es) prior).1
      q opts) := by
  simp only [RAGSystem.indexRepositoryBuild]
  rw [if_pos (by simp)]
  simp only [RAGSystem.indexRepositoryLoad, RAGSystem.searchState, List.map_map,
    if_true, Option.map_some', Option.some.injEq]
  congr 1
  refine List.map_congr_left ?_
  intro p _
  simp [keyVal_natStr, Function.comp]

/-! ## Helper lemmas for C2 -/

namespace ASTChunker

theorem chunkPython_ne_nil (fp content : String) : chunkPython fp content ≠ [] := by
  simp only [chunkPython]
  split
  · simp
  · next h => exact fun hnil => h (by simp [hnil])

theorem chunkCSharp_ne_nil (cfg : ASTChunkerConfig) (fp content : String) :
    chunkCSharp cfg fp content ≠ [] := by
  simp only [chunkCSharp]
  split
  · simp
  · next h => exact fun hnil => h (by simp [hnil])

theorem chunkGo_ne_nil (fp content : String) : chunkGo fp content ≠ [] := by
  simp only [chunkGo]
  split
  · simp
  · next h => exact fun hnil => h (by simp [hnil])

theorem chunkJavaLike_ne_nil (cfg : ASTChunkerConfig) (fp content lang : String) :
    chunkJavaLike cfg fp content lang ≠ [] := by
  simp only [chunkJavaLike]
  intro h
  exact chunkCSharp_ne_nil cfg fp content (List.map_eq_nil_iff.mp h)

theorem chunkGeneric_ne_nil (cfg : ASTChunkerConfig) (fp content lang : String) :
    chunkGeneric cfg fp content lang ≠ [] := by
  simp only [chunkGeneric]
  split
  · simp
  · next h => exact fun hnil => h (by simp [hnil])

theorem processTypeScriptNode_some_inv {cfg : ASTChunkerConfig} {lines : List String}
    {fp lang : String} {pn cp : Option String} {node : TsNode} {c : ASTChunk}
    (h : processTypeScriptNode cfg lines fp lang pn cp node = some c) :
    c.parentName = pn ∧ c.contextPath = cp ∧
    c.startLine = chunkStartOf node + 1 ∧ c.endLine = node.endLine + 1 ∧
    c.content = joinWith "\n" (jsSlice lines (chunkStartOf node) (node.endLine + 1)) := by
  simp only [processTypeScriptNode] at h
  cases hnb : nodeBasics node with
  | none => rw [hnb] at h; simp at h
  | some quad =>
      obtain ⟨t, nm, pub, decs⟩ := quad
      rw [hnb] at h
      dsimp only at h
      by_cases hsz : strLen (joinWith "\n"
          (jsSlice lines (chunkStartOf node) (node.endLine + 1))) < cfg.minChunkSize
      · rw [if_pos hsz] at h
        simp at h
      · rw [if_neg hsz] at h
        have hc := Option.some.inj h
        subst hc
        exact ⟨rfl, rfl, rfl, rfl, rfl⟩

theorem mergeSmallChunks_ne_nil (cfg : ASTChunkerConfig) (chunks : List ASTChunk)
    (fp lang : String) (h : chunks ≠ []) : mergeSmallChunks cfg chunks fp lang ≠ [] := by
  simp only [mergeSmallChunks]
  split
  · exact h
  · rw [mergeLoop_eq_groups]
    intro hmap
    have hjoin := mergeGroupsLoop_join cfg chunks []
    rw [List.map_eq_nil_iff.mp hmap] at hjoin
    exact h (by simpa using hjoin.symm)

end ASTChunker

/-! ## C2: chunkFile returns at least one chunk -/

/-- C2 counterexample: a non-empty TypeScript file at or above the
configured maximum chunk size from which no import block and no construct
chunk is extracted (a comment-only file) makes chunkFile return an empty
list rather than at least one chunk. -/
theorem C2_counterexample :
    Fixtures.tsCommentContent ≠ "" ∧
    Fixtures.tinyMaxCfg.maxChunkSize ≤ strLen Fixtures.tsCommentContent ∧
    ASTChunker.chunkFileContent Fixtures.tinyMaxCfg Fixtures.tsCommentParse "a.ts"
      Fixtures.tsCommentContent = [] :=
  ⟨by decide, by decide, by decide⟩

/-- C2 amended: chunkFile returns at least one chunk for every file on
every non-TypeScript-family language path (the pattern chunkers all fall
back to a whole-file chunk), and on the TypeScript path whenever the file
is smaller than the configured maximum chunk size or at least one import
block or construct chunk was extracted; the remaining case — a
TypeScript-family file at or above the maximum with nothing extracted —
returns the empty list shown in the counterexample. -/
theorem C2_chunkFile_nonempty :
    (∀ (cfg : ASTChunker.ASTChunkerConfig) (parse : String → ASTChunker.TsNode)
        (fp content : String),
        tsFamily (ASTChunker.getLanguage (jsLower (extname fp))) = false →
        ASTChunker.chunkFileContent cfg parse fp content ≠ []) ∧
    (∀ (cfg : ASTChunker.ASTChunkerConfig) (parse : String → ASTChunker.TsNode)
        (fp content lang : String), strLen content < cfg.maxChunkSize →
        ASTChunker.chunkTypeScript cfg parse fp content lang ≠ []) ∧
    (∀ (cfg : ASTChunker.ASTChunkerConfig) (parse : String → ASTChunker.TsNode)
        (fp content lang : String),
        (ASTChunker.extractTypeScriptImports (jsLines content) (parse content) fp lang).isSome
            = true ∨
          ASTChunker.visitNode cfg (jsLines content) fp lang (parse content) none none ≠ [] →
        ASTChunker.chunkTypeScript cfg parse fp content lang ≠ []) := by
  refine ⟨?_, ?_, ?_⟩
  · intro cfg parse fp content hfam
    simp only [ASTChunker.chunkFileContent]
    simp only [tsFamily] at hfam
    rw [if_neg (by simpa using hfam)]
    split
    · exact ASTChunker.chunkPython_ne_nil fp content
    · split
      · exact ASTChunker.chunkCSharp_ne_nil cfg fp content
      · split
        · exact ASTChunker.chunkGo_ne_nil fp content
        · split
          · exact ASTChunker.chunkJavaLike_ne_nil cfg fp content _
          · exact ASTChunker.chunkGeneric_ne_nil cfg fp content _
  · intro cfg parse fp content lang hsmall
    simp only [ASTChunker.chunkTypeScript]
    split
    · simp
    · next hcond =>
        apply ASTChunker.mergeSmallChunks_ne_nil
        intro hnil
        rw [hnil] at hcond
        simp [hsmall] at hcond
  · intro cfg parse fp content lang hx
    simp only [ASTChunker.chunkTypeScript]
    split
    · simp
    · apply ASTChunker.mergeSmallChunks_ne_nil
      rcases hx with hi | hv
      · cases himp : ASTChunker.extractTypeScriptImports (jsLines content) (parse content) fp lang with
        | none => rw [himp] at hi; simp at hi
        | some c => simp
      · cases himp : ASTChunker.extractTypeScriptImports (jsLines content) (parse content) fp lang with
        | none => simpa using hv
        | some c => simp

/-- C2 witness: a Python file dispatched through chunkFile yields at least
one chunk. -/
theorem C2_witness :
    tsFamily (ASTChunker.getLanguage (jsLower (extname "m.py"))) = false ∧
    ASTChunker.chunkFileContent Fixtures.smallCfg Fixtures.tsCommentParse "m.py"
      Fixtures.pyContent ≠ [] :=
  ⟨by decide, C2_chunkFile_nonempty.1 Fixtures.smallCfg Fixtures.tsCommentParse "m.py"
    Fixtures.pyContent (by decide)⟩

/-! ## C7: the chunk merger -/

/-- C7 amended: the merger partitions its input, in order, into runs
(singleton runs for chunks of at least twice the minimum size, and runs of
small chunks closed when their combined size reaches twice the minimum or
at the end), and maps each run through mergePendingChunks; chunks of at
least twice the minimum size pass through unchanged; each merged run of
two or more chunks gets the comma-joined constituent names, the generic
file chunk type, and the FIRST three hints of the concatenated constituent
hint lists (in constituent order — not the top three by confidence, which
is the corrected part of the claim). -/
theorem C7_merge_spec (cfg : ASTChunker.ASTChunkerConfig)
    (chunks : List ASTChunker.ASTChunk) (fp lang : String) :
    ∃ groups : List (List ASTChunker.ASTChunk),
      groups.flatten = chunks ∧
      ASTChunker.mergeSmallChunks cfg chunks fp lang =
        groups.map (ASTChunker.mergePendingChunks fp lang) ∧
      (∀ g ∈ groups, g ≠ []) ∧
      (∀ g ∈ groups, 2 ≤ g.length → ∀ x ∈ g, strLen x.content < 2 * cfg.minChunkSize) ∧
      (∀ c ∈ chunks, 2 * cfg.minChunkSize ≤ strLen c.content →
        c ∈ ASTChunker.mergeSmallChunks cfg chunks fp lang) ∧
      (∀ g ∈ groups, 2 ≤ g.length →
        (ASTChunker.mergePendingChunks fp lang g).name =
            joinWith ", " (g.map ASTChunker.ASTChunk.name) ∧
          (ASTChunker.mergePendingChunks fp lang g).chunkType = "file" ∧
          (ASTChunker.mergePendingChunks fp lang g).domainHints =
            some ((g.flatMap (fun x => x.domainHints.getD [])).take 3)) := by
  have hmerged : ∀ g : List ASTChunker.ASTChunk, 2 ≤ g.length →
      (ASTChunker.mergePendingChunks fp lang g).name =
          joinWith ", " (g.map ASTChunker.ASTChunk.name) ∧
        (ASTChunker.mergePendingChunks fp lang g).chunkType = "file" ∧
        (ASTChunker.mergePendingChunks fp lang g).domainHints =
          some ((g.flatMap (fun x => x.domainHints.getD [])).take 3) := by
    intro g hg
    match g, hg with
    | a :: b :: t, _ => exact ⟨rfl, rfl, rfl⟩
  have hflat : ∀ l : List ASTChunker.ASTChunk, (l.map (fun c => [c])).flatten = l := by
    intro l
    induction l with
    | nil => rfl
    | cons c t ih => simp only [List.map_cons, List.flatten_cons, ih, List.singleton_append]
  by_cases hlen : chunks.length ≤ 1
  · refine ⟨chunks.map (fun c => [c]), hflat chunks, ?_, ?_, ?_, ?_, ?_⟩
    · rw [List.map_map]
      simp only [ASTChunker.mergeSmallChunks, if_pos hlen]
      have : ∀ c ∈ chunks,
          ((ASTChunker.mergePendingChunks fp lang) ∘ fun c => [c]) c = id c := by
        intro c _
        exact ASTChunker.mergePendingChunks_singleton fp lang c
      rw [List.map_congr_left this, List.map_id]
    · intro g hg
      rcases List.mem_map.mp hg with ⟨c, _, rfl⟩
      simp
    · intro g hg
      rcases List.mem_map.mp hg with ⟨c, _, rfl⟩
      intro h2
      simp at h2
    · intro c hc _
      simp only [ASTChunker.mergeSmallChunks, if_pos hlen]
      exact hc
    · intro g hg
      rcases List.mem_map.mp hg with ⟨c, _, rfl⟩
      intro h2
      simp at h2
  · have hout : ASTChunker.mergeSmallChunks cfg chunks fp lang =
        (ASTChunker.mergeGroupsLoop cfg chunks []).map
          (ASTChunker.mergePendingChunks fp lang) := by
      simp only [ASTChunker.mergeSmallChunks, if_neg hlen]
      exact ASTChunker.mergeLoop_eq_groups cfg fp lang chunks []
    have hjoin : (ASTChunker.mergeGroupsLoop cfg chunks []).flatten = chunks := by
      simpa using ASTChunker.mergeGroupsLoop_join cfg chunks []
    have hshape := ASTChunker.mergeGroupsLoop_shape cfg chunks [] (by simp)
    refine ⟨ASTChunker.mergeGroupsLoop cfg chunks [], hjoin, hout, ?_, ?_, ?_, ?_⟩
    · intro g hg
      exact (hshape g hg).1
    · intro g hg
      exact (hshape g hg).2
    · intro c hc hbig
      rw [← hjoin] at hc
      rcases List.mem_flatten.mp hc with ⟨g, hg, hcg⟩
      have hne := (hshape g hg).1
      have hsmall := (hshape g hg).2
      have hg1 : g = [c] := by
        match g, hne, hcg, hsmall with
        | [x], _, hcx, _ => simp at hcx; rw [hcx]
        | x :: y :: t, _, hcx, hs =>
            exact absurd hbig (by have := hs (by simp) c hcx; omega)
      rw [hout]
      refine List.mem_map.mpr ⟨g, hg, ?_⟩
      rw [hg1, ASTChunker.mergePendingChunks_singleton]
    · intro g hg h2
      exact hmerged g h2

/-- C7 counterexample: merging two small chunks keeps the first three
hints of the concatenation in constituent order, dropping a strictly
higher-confidence hint of the second constituent — the merged domainHints
are not the union capped to the top 3 by confidence. -/
theorem C7_counterexample :
    (ASTChunker.mergeSmallChunks Fixtures.mergeCfg [Fixtures.mergeC1, Fixtures.mergeC2]
        "f.ts" "typescript").map (fun c => c.domainHints) =
      [some [Fixtures.hLog, Fixtures.hSearch, Fixtures.hCache]] ∧
    Fixtures.hAuth ∈ ([Fixtures.mergeC1, Fixtures.mergeC2].flatMap
      (fun c => c.domainHints.getD [])) ∧
    Fixtures.hLog.confidence < Fixtures.hAuth.confidence ∧
    Fixtures.hSearch.confidence < Fixtures.hAuth.confidence ∧
    Fixtures.hCache.confidence < Fixtures.hAuth.confidence :=
  ⟨by decide, by decide, by decide, by decide, by decide⟩

/-- C7 witness: a chunk of at least twice the minimum size passes through
the merger unchanged. -/
theorem C7_witness :
    2 * Fixtures.mergeCfg.minChunkSize ≤ strLen Fixtures.mergeBig.content ∧
    Fixtures.mergeBig ∈ ASTChunker.mergeSmallChunks Fixtures.mergeCfg
      [Fixtures.mergeC1, Fixtures.mergeBig, Fixtures.mergeC2] "f.ts" "typescript" := by
  obtain ⟨groups, h1, h2, h3, h4, h5, h6⟩ := C7_merge_spec Fixtures.mergeCfg
    [Fixtures.mergeC1, Fixtures.mergeBig, Fixtures.mergeC2] "f.ts" "typescript"
  exact ⟨by decide, h5 Fixtures.mergeBig (by decide) (by decide)⟩

/-! ## Helper lemmas for C6 -/

namespace ASTChunker

theorem jsMinQ_eq_min (a b : ℚ) : jsMinQ a b = min a b := (min_def a b).symm

theorem mkRat_nat_div (s : Nat) : (mkRat (s : Int) 10 : ℚ) = (s : ℚ) / 10 := by
  rw [Rat.mkRat_eq_div]
  norm_num

theorem categoryHint_some_spec (name : String) (documentation : Option String)
    (st cat : String) (kws : List String) (h : DomainHint)
    (heq : categoryHint (jsLower name) (documentation.map jsLower) st cat kws = some h) :
    h.category = cat ∧
    h.keywords = kws.filter (fun k => containsSub st k) ∧
    h.keywords ≠ [] ∧
    h.confidence = min ((specCategoryScore name documentation st kws : ℚ) / 10) 1 ∧
    h.source = specFirstMatchedSource name documentation h.keywords := by
  simp only [categoryHint] at heq
  by_cases hu : cat = "unknown"
  · rw [if_pos hu] at heq
    simp at heq
  · rw [if_neg hu] at heq
    by_cases hm : (kws.filter (fun k => containsSub st k)).isEmpty
    · rw [if_pos hm] at heq
      simp at heq
    · rw [if_neg hm] at heq
      have hc := Option.some.inj heq
      subst hc
      refine ⟨rfl, rfl, by simpa [List.isEmpty_iff] using hm, ?_, ?_⟩
      · dsimp only
        rw [jsMinQ_eq_min, mkRat_nat_div]
        have hsc : ((kws.filter (fun k => containsSub st k)).map (fun k =>
            if containsSub (jsLower name) k then 3
            else match documentation.map jsLower with
                 | some d => if containsSub d k then 2 else 1
                 | none => 1)).sum = specCategoryScore name documentation st kws := by
          simp only [specCategoryScore]
          congr 1
          refine List.map_congr_left ?_
          intro k _
          cases documentation <;> rfl
        rw [hsc]
      · dsimp only
        simp only [specFirstMatchedSource]
        cases documentation <;> rfl

theorem categoryHint_produces (nameL : String) (docL : Option String) (st cat : String)
    (kws : List String) (hu : cat ≠ "unknown")
    (hm : kws.filter (fun k => containsSub st k) ≠ []) :
    ∃ hc, categoryHint nameL docL st cat kws = some hc := by
  simp only [categoryHint, if_neg hu]
  rw [if_neg (by simpa [List.isEmpty_iff] using hm)]
  exact ⟨_, rfl⟩

end ASTChunker

/-! ## C6: the domain classifier -/

/-- C6 amended: every hint inferDomainHints returns belongs to a category
of the keyword table with at least one matched keyword (zero-match
categories are omitted), carries the matched keyword list, the confidence
min(score/10, 1) with the 3/2/1 name/documentation/other weighting, and a
source field decided from the FIRST matched keyword only (the corrected
part: not the highest-weight source that matched); at most 3 hints are
returned, sorted by confidence descending, and any matching category left
out has confidence at most that of every returned hint. -/
theorem C6_classifier_spec (name : String) (documentation : Option String)
    (decorators : List String) (content : String) :
    (ASTChunker.inferDomainHints name documentation decorators content).length ≤ 3 ∧
    List.Sorted (fun a b : ASTChunker.DomainHint => b.confidence ≤ a.confidence)
      (ASTChunker.inferDomainHints name documentation decorators content) ∧
    (∀ h ∈ ASTChunker.inferDomainHints name documentation decorators content,
      ∃ kws, (h.category, kws) ∈ ASTChunker.DOMAIN_KEYWORDS ∧
        h.keywords = kws.filter (fun k =>
          containsSub (ASTChunker.searchTextOf name documentation decorators content) k) ∧
        h.keywords ≠ [] ∧
        h.confidence = min ((ASTChunker.specCategoryScore name documentation
            (ASTChunker.searchTextOf name documentation decorators content) kws : ℚ) / 10) 1 ∧
        h.source = ASTChunker.specFirstMatchedSource name documentation h.keywords) ∧
    (∀ h ∈ ASTChunker.inferDomainHints name documentation decorators content,
      ∀ cat kws, (cat, kws) ∈ ASTChunker.DOMAIN_KEYWORDS → cat ≠ "unknown" →
        kws.filter (fun k =>
          containsSub (ASTChunker.searchTextOf name documentation decorators content) k) ≠ [] →
        cat ∉ (ASTChunker.inferDomainHints name documentation decorators content).map
          ASTChunker.DomainHint.category →
        min ((ASTChunker.specCategoryScore name documentation
            (ASTChunker.searchTextOf name documentation decorators content) kws : ℚ) / 10) 1 ≤
          h.confidence) := by
  haveI hTot : IsTotal ASTChunker.DomainHint
      (fun a b : ASTChunker.DomainHint => b.confidence ≤ a.confidence) :=
    ⟨fun a b => le_total b.confidence a.confidence⟩
  haveI hTrans : IsTrans ASTChunker.DomainHint
      (fun a b : ASTChunker.DomainHint => b.confidence ≤ a.confidence) :=
    ⟨fun _ _ _ h1 h2 => le_trans h2 h1⟩
  have hres : ASTChunker.inferDomainHints name documentation decorators content =
      ((ASTChunker.DOMAIN_KEYWORDS.filterMap (fun p =>
          ASTChunker.categoryHint (jsLower name) (documentation.map jsLower)
            (ASTChunker.searchTextOf name documentation decorators content) p.1 p.2)).insertionSort
        (fun a b => b.confidence ≤ a.confidence)).take 3 := rfl
  have hsortedAll : List.Sorted (fun a b : ASTChunker.DomainHint => b.confidence ≤ a.confidence)
      ((ASTChunker.DOMAIN_KEYWORDS.filterMap (fun p =>
          ASTChunker.categoryHint (jsLower name) (documentation.map jsLower)
            (ASTChunker.searchTextOf name documentation decorators content) p.1 p.2)).insertionSort
        (fun a b => b.confidence ≤ a.confidence)) :=
    List.sorted_insertionSort _ _
  refine ⟨?_, ?_, ?_, ?_⟩
  · rw [hres]
    exact List.length_take_le 3 _
  · rw [hres]
    exact List.Pairwise.sublist (List.take_sublist 3 _) hsortedAll
  · intro h hmem
    rw [hres] at hmem
    have hmem2 := List.mem_of_mem_take hmem
    have hmem3 : h ∈ ASTChunker.DOMAIN_KEYWORDS.filterMap (fun p =>
        ASTChunker.categoryHint (jsLower name) (documentation.map jsLower)
          (ASTChunker.searchTextOf name documentation decorators content) p.1 p.2) :=
      (List.perm_insertionSort _ _).mem_iff.mp hmem2
    rcases List.mem_filterMap.mp hmem3 with ⟨p, hp, hph⟩
    have hspec := ASTChunker.categoryHint_some_spec name documentation _ p.1 p.2 h hph
    refine ⟨p.2, ?_, hspec.2.1, hspec.2.2.1, hspec.2.2.2.1, hspec.2.2.2.2⟩
    rw [hspec.1]
    exact hp
  · intro h hmem cat kws htab hu hmatch hnotin
    obtain ⟨hc, hhc⟩ := ASTChunker.categoryHint_produces (jsLower name)
      (documentation.map jsLower)
      (ASTChunker.searchTextOf name documentation decorators content) cat kws hu hmatch
    have hspec := ASTChunker.categoryHint_some_spec name documentation _ cat kws hc hhc
    have hcmem : hc ∈ ASTChunker.DOMAIN_KEYWORDS.filterMap (fun p =>
        ASTChunker.categoryHint (jsLower name) (documentation.map jsLower)
          (ASTChunker.searchTextOf name documentation decorators content) p.1 p.2) :=
      List.mem_filterMap.mpr ⟨(cat, kws), htab, hhc⟩
    have hcsorted : hc ∈ (ASTChunker.DOMAIN_KEYWORDS.filterMap (fun p =>
        ASTChunker.categoryHint (jsLower name) (documentation.map jsLower)
          (ASTChunker.searchTextOf name documentation decorators content) p.1 p.2)).insertionSort
        (fun a b => b.confidence ≤ a.confidence) :=
      (List.perm_insertionSort _ _).mem_iff.mpr hcmem
    have hcnot : hc ∉ ASTChunker.inferDomainHints name documentation decorators content := by
      intro hcontra
      exact hnotin (List.mem_map.mpr ⟨hc, hcontra, hspec.1⟩)
    have hsplit := List.take_append_drop 3
      ((ASTChunker.DOMAIN_KEYWORDS.filterMap (fun p =>
        ASTChunker.categoryHint (jsLower name) (documentation.map jsLower)
          (ASTChunker.searchTextOf name documentation decorators content)
          p.1 p.2)).insertionSort (fun a b => b.confidence ≤ a.confidence))
    have hcdrop : hc ∈ ((ASTChunker.DOMAIN_KEYWORDS.filterMap (fun p =>
        ASTChunker.categoryHint (jsLower name) (documentation.map jsLower)
          (ASTChunker.searchTextOf name documentation decorators content)
          p.1 p.2)).insertionSort (fun a b => b.confidence ≤ a.confidence)).drop 3 := by
      have hmem4 : hc ∈ ((ASTChunker.DOMAIN_KEYWORDS.filterMap (fun p =>
          ASTChunker.categoryHint (jsLower name) (documentation.map jsLower)
            (ASTChunker.searchTextOf name documentation decorators content)
            p.1 p.2)).insertionSort (fun a b => b.confidence ≤ a.confidence)).take 3 ++
          ((ASTChunker.DOMAIN_KEYWORDS.filterMap (fun p =>
          ASTChunker.categoryHint (jsLower name) (documentation.map jsLower)
            (ASTChunker.searchTextOf name documentation decorators content)
            p.1 p.2)).insertionSort (fun a b => b.confidence ≤ a.confidence)).drop 3 := by
        rw [hsplit]
        exact hcsorted
      rcases List.mem_append.mp hmem4 with h1 | h2
      · exact absurd (hres ▸ h1) hcnot
      · exact h2
    have hsorted2 : List.Pairwise (fun a b : ASTChunker.DomainHint => b.confidence ≤ a.confidence)
        (((ASTChunker.DOMAIN_KEYWORDS.filterMap (fun p =>
          ASTChunker.categoryHint (jsLower name) (documentation.map jsLower)
            (ASTChunker.searchTextOf name documentation decorators content)
            p.1 p.2)).insertionSort (fun a b => b.confidence ≤ a.confidence)).take 3 ++
          ((ASTChunker.DOMAIN_KEYWORDS.filterMap (fun p =>
          ASTChunker.categoryHint (jsLower name) (documentation.map jsLower)
            (ASTChunker.searchTextOf name documentation decorators content)
            p.1 p.2)).insertionSort (fun a b => b.confidence ≤ a.confidence)).drop 3) := by
      rw [hsplit]
      exact hsortedAll
    have hcross := (List.pairwise_append.mp hsorted2).2.2
    have hle := hcross h (hres ▸ hmem) hc hcdrop
    calc min ((ASTChunker.specCategoryScore name documentation
            (ASTChunker.searchTextOf name documentation decorators content) kws : ℚ) / 10) 1
        = hc.confidence := hspec.2.2.2.1.symm
      _ ≤ h.confidence := hle

/-- C6 counterexample: for name login and body text auth, the first
returned hint (authentication) has a keyword (login) matched in the name —
the highest-weight source — yet its source field is content, because the
code decides the source from the first matched keyword (auth) alone. -/
theorem C6_counterexample :
    Fixtures.c6hint ∈ ASTChunker.inferDomainHints "login" none [] "auth" ∧
    Fixtures.c6hint.category = "authentication" ∧
    Fixtures.c6hint.source = "content" ∧
    ASTChunker.specHighestWeightSource "login" none Fixtures.c6hint.keywords = "name" :=
  ⟨by decide, by decide, by decide, by decide⟩

/-- C6 witness: the amended theorem instantiated at the counterexample
input. -/
theorem C6_witness :
    Fixtures.c6hint ∈ ASTChunker.inferDomainHints "login" none [] "auth" ∧
    (∃ kws, (Fixtures.c6hint.category, kws) ∈ ASTChunker.DOMAIN_KEYWORDS ∧
      Fixtures.c6hint.keywords = kws.filter (fun k =>
        containsSub (ASTChunker.searchTextOf "login" none [] "auth") k) ∧
      Fixtures.c6hint.keywords ≠ [] ∧
      Fixtures.c6hint.confidence = min ((ASTChunker.specCategoryScore "login" none
          (ASTChunker.searchTextOf "login" none [] "auth") kws : ℚ) / 10) 1 ∧
      Fixtures.c6hint.source =
        ASTChunker.specFirstMatchedSource "login" none Fixtures.c6hint.keywords) :=
  ⟨by decide, (C6_classifier_spec "login" none [] "auth").2.2.1 Fixtures.c6hint (by decide)⟩

/-! ## C8: nested chunking of oversized composite constructs -/

/-- C8 counterexample: for a class whose content exceeds 70 percent of the
maximum chunk size, the visit emits the nested method as a separate chunk
IN ADDITION to the parent class chunk, which stays whole in the output —
not instead of it, as the claim states. -/
theorem C8_counterexample :
    (ASTChunker.visitNode Fixtures.smallCfg Fixtures.clsLines "a.ts" "typescript"
        Fixtures.sfNode none none).length = 2 ∧
    Fixtures.clsParent ∈ ASTChunker.visitNode Fixtures.smallCfg Fixtures.clsLines "a.ts"
      "typescript" Fixtures.sfNode none none ∧
    ASTChunker.shouldChunkNested Fixtures.smallCfg Fixtures.clsParent = true ∧
    Fixtures.clsParent.chunkType = "class" ∧
    ((ASTChunker.visitNode Fixtures.smallCfg Fixtures.clsLines "a.ts" "typescript"
        Fixtures.sfNode none none).getD 1 ASTChunker.emptyASTChunk).parentName =
      some "FooHelper" ∧
    ((ASTChunker.visitNode Fixtures.smallCfg Fixtures.clsLines "a.ts" "typescript"
        Fixtures.sfNode none none).getD 1 ASTChunker.emptyASTChunk).contextPath =
      some "FooHelper" :=
  ⟨by decide, by decide, by decide, by decide, by decide, by decide⟩

/-- C8 amended: when nested chunking is enabled and a node's chunk is a
composite whose content exceeds 70 percent of the maximum chunk size, the
visit emits that chunk AND the chunks of its children, visited with the
parent name and the extended context path; every chunk the node processor
produces carries exactly the parent name and context path it was visited
with. -/
theorem C8_nested_members_emitted :
    (∀ (cfg : ASTChunker.ASTChunkerConfig) (lines : List String) (fp lang : String)
        (node : ASTChunker.TsNode) (pn cp : Option String) (c : ASTChunker.ASTChunk),
        ASTChunker.processTypeScriptNode cfg lines fp lang pn cp node = some c →
        cfg.chunkNestedConstructs = true →
        ASTChunker.shouldChunkNested cfg c = true →
        ASTChunker.visitNode cfg lines fp lang node pn cp =
          c :: ASTChunker.visitChildren cfg lines fp lang node.children (some c.name)
            (some (ASTChunker.extendCtx cp c.name))) ∧
    (∀ (cfg : ASTChunker.ASTChunkerConfig) (lines : List String) (fp lang : String)
        (node : ASTChunker.TsNode) (pn cp : Option String) (c : ASTChunker.ASTChunk),
        ASTChunker.processTypeScriptNode cfg lines fp lang pn cp node = some c →
        c.parentName = pn ∧ c.contextPath = cp) := by
  constructor
  · intro cfg lines fp lang node pn cp c h hflag hnested
    cases node with
    | mk kind s e nm lc dt ps vi vh he hp ms children =>
        simp only [ASTChunker.visitNode, h, hflag, hnested, Bool.true_and, if_true,
          ASTChunker.TsNode.children]
        cases cp <;> simp [ASTChunker.extendCtx]
  · intro cfg lines fp lang node pn cp c h
    exact ⟨(ASTChunker.processTypeScriptNode_some_inv h).1,
      (ASTChunker.processTypeScriptNode_some_inv h).2.1⟩

/-- C8 witness: the amended theorem instantiated at the concrete class of
the counterexample. -/
theorem C8_witness :
    ASTChunker.processTypeScriptNode Fixtures.smallCfg Fixtures.clsLines "a.ts" "typescript"
        none none Fixtures.classNode = some Fixtures.clsParent ∧
    ASTChunker.shouldChunkNested Fixtures.smallCfg Fixtures.clsParent = true ∧
    ASTChunker.visitNode Fixtures.smallCfg Fixtures.clsLines "a.ts" "typescript"
        Fixtures.classNode none none =
      Fixtures.clsParent :: ASTChunker.visitChildren Fixtures.smallCfg Fixtures.clsLines
        "a.ts" "typescript" Fixtures.classNode.children (some Fixtures.clsParent.name)
        (some (ASTChunker.extendCtx none Fixtures.clsParent.name)) :=
  ⟨by decide, by decide,
   C8_nested_members_emitted.1 Fixtures.smallCfg Fixtures.clsLines "a.ts" "typescript"
     Fixtures.classNode none none Fixtures.clsParent (by decide) rfl (by decide)⟩

/-! ## Helper lemmas for the fallback embeddings (C4, C5)

The computable core of the embedding is the natural-number count vector;
these lemmas transport its arithmetic to the real-valued embedding. -/

namespace RAGSystem

theorem sumSq_map_cast (v : List Nat) :
    ((v.map (fun n => (Nat.cast n : ℝ))).map (fun x => x * x)).sum = (sumSqN v : ℝ) := by
  induction v with
  | nil => simp [sumSqN]
  | cons a t ih =>
      simp only [List.map_cons, List.sum_cons, sumSqN] at ih ⊢
      rw [ih, Nat.cast_add, Nat.cast_mul]

theorem dotR_map_cast (v w : List Nat) :
    dotR (v.map (fun n => (Nat.cast n : ℝ))) (w.map (fun n => (Nat.cast n : ℝ))) =
      (((List.zipWith (· * ·) v w).sum : ℕ) : ℝ) := by
  induction v generalizing w with
  | nil => simp [dotR]
  | cons a t ih =>
      cases w with
      | nil => simp [dotR]
      | cons b u =>
          simp only [List.map_cons, dotR, List.zipWith_cons_cons, List.sum_cons] at ih ⊢
          rw [ih u, Nat.cast_add, Nat.cast_mul]

theorem getD_map_cast (l : List Nat) (j : Nat) :
    (l.map (fun n => (Nat.cast n : ℝ))).getD j 0 = ((l.getD j 0 : Nat) : ℝ) := by
  induction l generalizing j with
  | nil => simp
  | cons a t ih =>
      cases j with
      | zero => rfl
      | succ k => exact ih k

theorem getD_set_ne (l : List Nat) (i j x : Nat) (h : i ≠ j) :
    (l.set i x).getD j 0 = l.getD j 0 := by
  induction l generalizing i j with
  | nil => simp
  | cons a t ih =>
      cases i with
      | zero =>
          cases j with
          | zero => exact absurd rfl h
          | succ k => rfl
      | succ m =>
          cases j with
          | zero => rfl
          | succ k => exact ih m k (fun he => h (by rw [he]))

theorem getD_replicate_zero (n j : Nat) : (List.replicate n (0 : Nat)).getD j 0 = 0 := by
  induction n generalizing j with
  | zero => simp
  | succ m ih =>
      cases j with
      | zero => rfl
      | succ k => exact ih k

theorem sum_set_incr (l : List Nat) (i : Nat) (h : i < l.length) :
    (l.set i (l.getD i 0 + 1)).sum = l.sum + 1 := by
  induction l generalizing i with
  | nil => simp at h
  | cons a t ih =>
      cases i with
      | zero =>
          show a + 1 + t.sum = a + t.sum + 1
          omega
      | succ k =>
          show a + (t.set k (t.getD k 0 + 1)).sum = a + t.sum + 1
          have hk : k < t.length := by
            simp only [List.length_cons] at h
            omega
          rw [ih k hk]
          omega

/-- The count vector totals exactly one unit per token. -/
theorem countVector_sum (t : String) :
    (countVector t).sum = (ragTokens t).length := by
  have key : ∀ (ws : List String) (acc : List Nat),
      (∀ w ∈ ws, bucketOf w < acc.length) →
      (ws.foldl (fun v w => v.set (bucketOf w) (v.getD (bucketOf w) 0 + 1)) acc).sum
        = acc.sum + ws.length := by
    intro ws
    induction ws with
    | nil => intro acc _; simp
    | cons w ws ih =>
        intro acc hb
        rw [List.foldl_cons,
          ih _ (fun x hx => by
            rw [List.length_set]
            exact hb x (List.mem_cons_of_mem _ hx)),
          sum_set_incr acc (bucketOf w) (hb w (List.mem_cons_self _ _)),
          List.length_cons]
        omega
  rw [countVector, key (ragTokens t) (List.replicate embeddingDimension 0)
    (fun w _ => by
      rw [List.length_replicate]
      exact Nat.mod_lt _ (by decide))]
  simp

theorem natSum_zero_entries {l : List Nat} (h0 : l.sum = 0) : ∀ x ∈ l, x = 0 := by
  induction l with
  | nil => intro x hx; simp at hx
  | cons a t ih =>
      rw [List.sum_cons] at h0
      intro x hx
      rcases List.mem_cons.mp hx with rfl | hx
      · omega
      · exact ih (by omega) x hx

theorem natSum_eq_zero {l : List Nat} (h : ∀ x ∈ l, x = 0) : l.sum = 0 := by
  induction l with
  | nil => rfl
  | cons a t ih =>
      rw [List.sum_cons, h a (List.mem_cons_self _ _),
        ih (fun x hx => h x (List.mem_cons_of_mem _ hx))]

/-- A text with at least one token has a nonzero squared count norm. -/
theorem sumSqN_countVector_ne_zero (t : String) (h : ragTokens t ≠ []) :
    sumSqN (countVector t) ≠ 0 := by
  intro h0
  have hall : ∀ x ∈ countVector t, x = 0 := fun x hx =>
    mul_self_eq_zero.mp (natSum_zero_entries h0 (x * x) (List.mem_map_of_mem _ hx))
  have hsum0 : (countVector t).sum = 0 := natSum_eq_zero hall
  rw [countVector_sum] at hsum0
  exact h (List.eq_nil_of_length_eq_zero hsum0)

/-- A count vector entry at a bucket no token hashes to is zero. -/
theorem countVector_support (t : String) (j : Nat)
    (h : j ∉ (ragTokens t).map bucketOf) : (countVector t).getD j 0 = 0 := by
  have key : ∀ (ws : List String) (acc : List Nat), acc.getD j 0 = 0 →
      j ∉ ws.map bucketOf →
      (ws.foldl (fun v w => v.set (bucketOf w) (v.getD (bucketOf w) 0 + 1)) acc).getD j 0
        = 0 := by
    intro ws
    induction ws with
    | nil => intro acc h1 _; exact h1
    | cons w ws ih =>
        intro acc h1 h2
        rw [List.map_cons] at h2
        simp only [List.mem_cons, not_or] at h2
        rw [List.foldl_cons]
        refine ih _ ?_ h2.2
        rw [getD_set_ne _ _ _ _ (fun he => h2.1 he.symm)]
        exact h1
  exact key (ragTokens t) _ (getD_replicate_zero _ _) h

theorem sumSq_nonneg (v : List ℝ) : 0 ≤ (v.map (fun x => x * x)).sum :=
  List.sum_nonneg (fun x hx => by
    rcases List.mem_map.mp hx with ⟨y, _, rfl⟩
    exact mul_self_nonneg y)

theorem sumSq_map_div (v : List ℝ) (a : ℝ) :
    ((v.map (fun x => x / a)).map (fun x => x * x)).sum
      = (v.map (fun x => x * x)).sum / (a * a) := by
  induction v with
  | nil => simp
  | cons x t ih =>
      simp only [List.map_cons, List.sum_cons, ih]
      have hx : x / a * (x / a) = x * x / (a * a) := by ring
      rw [hx, div_add_div_same]

/-- Normalizing a vector of nonzero squared sum yields a unit vector. -/
theorem l2norm_normalize (v : List ℝ)
    (h : (v.map (fun x => x * x)).sum ≠ 0) : l2norm (normalizeVector v) = 1 := by
  have hpos : 0 < (v.map (fun x => x * x)).sum :=
    lt_of_le_of_ne (sumSq_nonneg v) (Ne.symm h)
  have hs : Real.sqrt ((v.map (fun x => x * x)).sum) ≠ 0 :=
    Real.sqrt_ne_zero'.mpr hpos
  simp only [normalizeVector]
  rw [if_neg hs, l2norm, sumSq_map_div, Real.mul_self_sqrt (le_of_lt hpos), div_self h]
  exact Real.sqrt_one

theorem dotR_eq_zero_of_pointwise (v : List ℝ) :
    ∀ (w : List ℝ), (∀ j, v.getD j 0 = 0 ∨ w.getD j 0 = 0) → dotR v w = 0 := by
  induction v with
  | nil => intro w _; simp [dotR]
  | cons a t ih =>
      intro w h
      cases w with
      | nil => simp [dotR]
      | cons b u =>
          have h0 := h 0
          simp only [List.getD_cons_zero] at h0
          have ht : ∀ j, t.getD j 0 = 0 ∨ u.getD j 0 = 0 := by
            intro j
            have := h (j + 1)
            simpa only [List.getD_cons_succ] using this
          have hrec := ih u ht
          simp only [dotR, List.zipWith_cons_cons, List.sum_cons] at hrec ⊢
          rcases h0 with h0 | h0 <;> rw [h0] <;> simp [hrec]

theorem dotR_map_div_left (v : List ℝ) (a : ℝ) :
    ∀ (w : List ℝ), dotR (v.map (fun x => x / a)) w = dotR v w / a := by
  induction v with
  | nil => intro w; simp [dotR]
  | cons x t ih =>
      intro w
      cases w with
      | nil => simp [dotR]
      | cons b u =>
          simp only [List.map_cons, dotR, List.zipWith_cons_cons, List.sum_cons] at ih ⊢
          rw [ih u]
          ring

theorem dotR_map_div_right (v : List ℝ) (a : ℝ) :
    ∀ (w : List ℝ), dotR v (w.map (fun x => x / a)) = dotR v w / a := by
  induction v with
  | nil => intro w; simp [dotR]
  | cons x t ih =>
      intro w
      cases w with
      | nil => simp [dotR]
      | cons b u =>
          simp only [List.map_cons, dotR, List.zipWith_cons_cons, List.sum_cons] at ih ⊢
          rw [ih u]
          ring

end RAGSystem

/-! ## Helper lemmas for the content round trip (C1) -/

namespace ASTChunker

/-- The whole-file chunk carries the file verbatim, which is exactly the
joined line range from line 1 to the last line. -/
theorem createWholeFileChunk_content (fp content lang : String)
    (imps : Option (List String)) :
    (createWholeFileChunk fp content lang imps).content =
      linesRange content (createWholeFileChunk fp content lang imps).startLine
        (createWholeFileChunk fp content lang imps).endLine := by
  show content = linesRange content 1 (jsLines content).length
  have h : jsSlice (jsLines content) (1 - 1) (jsLines content).length = jsLines content := by
    simp [jsSlice]
  rw [linesRange, h, joinWith_jsLines]

/-- Every chunk the generic scanning loop emits has as content the TRIMMED
join of its line range (both the segment chunks and the tail chunk). -/
theorem genericLoop_content (cfg : ASTChunkerConfig) (lines : List String)
    (fp lang : String) :
    ∀ (work : List String) (i cs : Nat) (cn : String) (bc : Int) (c : ASTChunk),
      c ∈ genericLoop cfg lines fp lang i work cs cn bc →
      c.content = jsTrim (joinWith "\n" (jsSlice lines (c.startLine - 1) c.endLine)) := by
  intro work
  induction work with
  | nil =>
      intro i cs cn bc c hc
      simp only [genericLoop] at hc
      split at hc
      · simp only [List.mem_singleton] at hc
        subst hc
        dsimp only [mkGenericChunk]
        rw [Nat.add_sub_cancel]
        have hslice : jsSlice lines cs lines.length = lines.drop cs := by
          simp only [jsSlice]
          rw [← List.length_drop, List.take_length]
        rw [hslice]
      · simp at hc
  | cons line rest ih =>
      intro i cs cn bc c hc
      simp only [genericLoop] at hc
      cases hm : (if bc = 0 then genericFirstMatch line else none) with
      | none =>
          rw [hm] at hc
          dsimp only at hc
          exact ih (i + 1) cs cn _ c hc
      | some newName =>
          rw [hm] at hc
          dsimp only at hc
          rcases List.mem_append.mp hc with hmem | hmem
          · split at hmem
            · split at hmem
              · simp only [List.mem_singleton] at hmem
                subst hmem
                dsimp only [mkGenericChunk]
                rw [Nat.add_sub_cancel]
              · simp at hmem
            · simp at hmem
          · exact ih (i + 1) i newName _ c hmem

end ASTChunker

/-! ## C1: the content round trip -/

/-- C1 counterexample: the first chunk the generic fallback extracts from
the five-line Rust fixture has trimmed content (the blank separator line
inside its [startLine, endLine] range is dropped), so the bit-exact
round-trip equality fails on the generic path. -/
theorem C1_counterexample :
    Fixtures.genChunk0 ∈
      ASTChunker.chunkGeneric Fixtures.smallCfg "x.rs" Fixtures.genContent "rust" ∧
    Fixtures.genChunk0.content ≠
      linesRange Fixtures.genContent Fixtures.genChunk0.startLine Fixtures.genChunk0.endLine :=
  ⟨by decide, by decide⟩

/-- C1 (corrected): the round trip is exact for TypeScript construct
chunks and for the whole-file chunk, but the generic fallback TRIMS the
joined lines (leading and trailing whitespace of the range, including
blank boundary lines, is dropped), and a merged chunk joins the
constituent contents with a blank line, which is not a line range of the
file at all: its content is the join of the constituents. -/
theorem C1_content_exactness :
    (∀ (cfg : ASTChunker.ASTChunkerConfig) (content fp lang : String)
        (pn cp : Option String) (node : ASTChunker.TsNode) (c : ASTChunker.ASTChunk),
        ASTChunker.processTypeScriptNode cfg (jsLines content) fp lang pn cp node = some c →
        c.content = linesRange content c.startLine c.endLine) ∧
    (∀ (fp content lang : String) (imps : Option (List String)),
        (ASTChunker.createWholeFileChunk fp content lang imps).content =
          linesRange content (ASTChunker.createWholeFileChunk fp content lang imps).startLine
            (ASTChunker.createWholeFileChunk fp content lang imps).endLine) ∧
    (∀ (cfg : ASTChunker.ASTChunkerConfig) (fp content lang : String)
        (c : ASTChunker.ASTChunk), c ∈ ASTChunker.chunkGeneric cfg fp content lang →
        c.content = jsTrim (linesRange content c.startLine c.endLine) ∨
          c.content = linesRange content c.startLine c.endLine) ∧
    (∀ (fp lang : String) (c c2 : ASTChunker.ASTChunk) (cs : List ASTChunker.ASTChunk),
        (ASTChunker.mergePendingChunks fp lang (c :: c2 :: cs)).content =
          joinWith "\n\n" ((c :: c2 :: cs).map ASTChunker.ASTChunk.content)) := by
  refine ⟨?_, ?_, ?_, ?_⟩
  · intro cfg content fp lang pn cp node c h
    obtain ⟨-, -, hs, he, hcont⟩ := ASTChunker.processTypeScriptNode_some_inv h
    rw [hcont, hs, he, linesRange, Nat.add_sub_cancel]
  · intro fp content lang imps
    exact ASTChunker.createWholeFileChunk_content fp content lang imps
  · intro cfg fp content lang c hc
    simp only [ASTChunker.chunkGeneric] at hc
    split at hc
    · simp only [List.mem_singleton] at hc
      subst hc
      right
      exact ASTChunker.createWholeFileChunk_content fp content lang none
    · left
      rw [linesRange]
      exact ASTChunker.genericLoop_content cfg (jsLines content) fp lang
        (jsLines content) 0 0 "module" 0 c hc
  · intro fp lang c c2 cs
    rfl

/-- C1 witness: the amended theorem instantiated at the generic fixture;
its first chunk satisfies the trimmed round trip. -/
theorem C1_witness :
    Fixtures.genChunk0 ∈
      ASTChunker.chunkGeneric Fixtures.smallCfg "x.rs" Fixtures.genContent "rust" ∧
    (Fixtures.genChunk0.content =
        jsTrim (linesRange Fixtures.genContent Fixtures.genChunk0.startLine
          Fixtures.genChunk0.endLine) ∨
      Fixtures.genChunk0.content =
        linesRange Fixtures.genContent Fixtures.genChunk0.startLine
          Fixtures.genChunk0.endLine) :=
  ⟨by decide, C1_content_exactness.2.2.1 Fixtures.smallCfg "x.rs" Fixtures.genContent "rust"
    Fixtures.genChunk0 (by decide)⟩

/-! ## C5: determinism and unit norm of the fallback embedding -/

/-- C5 counterexample: the text "a b" is nonempty but yields no token
longer than two characters, so its count vector is all zeros,
normalizeVector returns it unchanged, and the resulting embedding has L2
norm 0, not 1. -/
theorem C5_counterexample :
    RAGSystem.ragTokens "a b" = [] ∧
    RAGSystem.l2norm (RAGSystem.generateSimpleEmbedding "a b") = 0 ∧
    RAGSystem.l2norm (RAGSystem.generateSimpleEmbedding "a b") ≠ 1 := by
  have hcv : RAGSystem.countVector "a b" = List.replicate 1024 0 := by decide
  have hz : ((List.replicate 1024 (0 : ℕ)).map (fun n => (Nat.cast n : ℝ))) =
      List.replicate 1024 (0 : ℝ) := by
    rw [List.map_replicate, Nat.cast_zero]
  have hs : ((List.replicate 1024 (0 : ℝ)).map (fun x => x * x)).sum = 0 := by
    rw [List.map_replicate, mul_zero, List.sum_replicate, smul_zero]
  have h0 : RAGSystem.l2norm (RAGSystem.generateSimpleEmbedding "a b") = 0 := by
    rw [RAGSystem.generateSimpleEmbedding, hcv, hz]
    simp only [RAGSystem.normalizeVector]
    rw [hs, Real.sqrt_zero, if_pos rfl, RAGSystem.l2norm, hs, Real.sqrt_zero]
  exact ⟨by decide, h0, by rw [h0]; exact zero_ne_one⟩

/-- C5 (corrected): the fallback embedding is a pure function of the input
text, hence deterministic; and the returned vector has unit L2 norm
whenever the text has at least one token longer than two characters.  For
token-less texts normalizeVector returns the all-zero vector of norm 0
(see the counterexample), so the unconditional unit-norm half of the
claim is corrected by the token hypothesis. -/
theorem C5_deterministic_unit_norm (t1 t2 t : String) :
    (t1 = t2 → RAGSystem.generateSimpleEmbedding t1 = RAGSystem.generateSimpleEmbedding t2) ∧
    (RAGSystem.ragTokens t ≠ [] →
      RAGSystem.l2norm (RAGSystem.generateSimpleEmbedding t) = 1) := by
  constructor
  · intro h
    rw [h]
  · intro h
    rw [RAGSystem.generateSimpleEmbedding]
    apply RAGSystem.l2norm_normalize
    rw [RAGSystem.sumSq_map_cast]
    exact_mod_cast RAGSystem.sumSqN_countVector_ne_zero t h

/-- C5 witness: the theorem instantiated at the text "abc def", whose
token list is nonempty, and at the trivial equality of texts. -/
theorem C5_witness :
    (RAGSystem.ragTokens "abc def" ≠ [] ∧
      RAGSystem.l2norm (RAGSystem.generateSimpleEmbedding "abc def") = 1) ∧
    RAGSystem.generateSimpleEmbedding "abc" = RAGSystem.generateSimpleEmbedding "abc" :=
  ⟨⟨by decide, (C5_deterministic_unit_norm "abc" "abc" "abc def").2 (by decide)⟩,
    (C5_deterministic_unit_norm "abc" "abc" "abc def").1 rfl⟩

/-! ## C4: disjoint vocabularies and cosine similarity -/

/-- C4 counterexample: the texts "aaa" and "bcb" have disjoint token
vocabularies, yet simpleHash sends both tokens to bucket 65, so the two
embeddings coincide and their cosine similarity is 1, not 0. -/
theorem C4_counterexample :
    (∀ w ∈ RAGSystem.ragTokens "aaa", w ∉ RAGSystem.ragTokens "bcb") ∧
    RAGSystem.cosineSim (RAGSystem.generateSimpleEmbedding "aaa")
      (RAGSystem.generateSimpleEmbedding "bcb") = 1 := by
  constructor
  · decide
  · have h1 : RAGSystem.countVector "aaa" = (List.replicate 1024 0).set 65 1 := by decide
    have h2 : RAGSystem.countVector "bcb" = (List.replicate 1024 0).set 65 1 := by decide
    have hsq1 : RAGSystem.sumSqN ((List.replicate 1024 0).set 65 1) = 1 := by decide
    have hsq : ((((List.replicate 1024 0).set 65 1).map (fun n => (Nat.cast n : ℝ))).map
        (fun x => x * x)).sum = 1 := by
      rw [RAGSystem.sumSq_map_cast, hsq1, Nat.cast_one]
    have hembE : RAGSystem.normalizeVector
        (((List.replicate 1024 0).set 65 1).map (fun n => (Nat.cast n : ℝ))) =
        ((List.replicate 1024 0).set 65 1).map (fun n => (Nat.cast n : ℝ)) := by
      have hdiv1 : (fun x : ℝ => x / 1) = fun x : ℝ => x := funext fun x => div_one x
      simp only [RAGSystem.normalizeVector]
      rw [hsq, Real.sqrt_one, if_neg one_ne_zero, hdiv1, List.map_id']
    have hdot : RAGSystem.dotR
        (((List.replicate 1024 0).set 65 1).map (fun n => (Nat.cast n : ℝ)))
        (((List.replicate 1024 0).set 65 1).map (fun n => (Nat.cast n : ℝ))) = 1 := by
      rw [RAGSystem.dotR_map_cast,
        show ((List.zipWith (· * ·) ((List.replicate 1024 0).set 65 1)
          ((List.replicate 1024 0).set 65 1)).sum : ℕ) = 1 from by decide, Nat.cast_one]
    have hnorm : RAGSystem.l2norm
        (((List.replicate 1024 0).set 65 1).map (fun n => (Nat.cast n : ℝ))) = 1 := by
      rw [RAGSystem.l2norm, hsq, Real.sqrt_one]
    rw [RAGSystem.generateSimpleEmbedding, RAGSystem.generateSimpleEmbedding, h1, h2,
      hembE, RAGSystem.cosineSim, hdot, hnorm]
    norm_num

/-- C4 (corrected): what disjointness has to be measured on is the hash
buckets, not the vocabularies.  For every two texts whose token lists hash
into disjoint bucket sets, the count vectors have disjoint supports, every
pointwise product is zero, and the cosine similarity of the two fallback
embeddings is exactly 0 (normalization only rescales each factor). -/
theorem C4_disjoint_buckets_cosine_zero (t1 t2 : String)
    (h : ∀ b ∈ (RAGSystem.ragTokens t1).map RAGSystem.bucketOf,
      b ∉ (RAGSystem.ragTokens t2).map RAGSystem.bucketOf) :
    RAGSystem.cosineSim (RAGSystem.generateSimpleEmbedding t1)
      (RAGSystem.generateSimpleEmbedding t2) = 0 := by
  have hpoint : ∀ j,
      ((RAGSystem.countVector t1).map (fun n => (Nat.cast n : ℝ))).getD j 0 = 0 ∨
      ((RAGSystem.countVector t2).map (fun n => (Nat.cast n : ℝ))).getD j 0 = 0 := by
    intro j
    by_cases hj : j ∈ (RAGSystem.ragTokens t1).map RAGSystem.bucketOf
    · right
      rw [RAGSystem.getD_map_cast, RAGSystem.countVector_support t2 j (h j hj)]
      simp
    · left
      rw [RAGSystem.getD_map_cast, RAGSystem.countVector_support t1 j hj]
      simp
  have hd0 : RAGSystem.dotR ((RAGSystem.countVector t1).map (fun n => (Nat.cast n : ℝ)))
      ((RAGSystem.countVector t2).map (fun n => (Nat.cast n : ℝ))) = 0 :=
    RAGSystem.dotR_eq_zero_of_pointwise _ _ hpoint
  have hdemb : RAGSystem.dotR (RAGSystem.generateSimpleEmbedding t1)
      (RAGSystem.generateSimpleEmbedding t2) = 0 := by
    simp only [RAGSystem.generateSimpleEmbedding, RAGSystem.normalizeVector]
    split
    · split
      · exact hd0
      · rw [RAGSystem.dotR_map_div_right, hd0, zero_div]
    · split
      · rw [RAGSystem.dotR_map_div_left, hd0, zero_div]
      · rw [RAGSystem.dotR_map_div_left, RAGSystem.dotR_map_div_right, hd0, zero_div,
          zero_div]
  rw [RAGSystem.cosineSim, hdemb, zero_div]

/-- C4 witness: the theorem instantiated at the texts "abc" and "abd",
whose single tokens hash to the distinct buckets 98 and 99. -/
theorem C4_witness :
    (∀ b ∈ (RAGSystem.ragTokens "abc").map RAGSystem.bucketOf,
        b ∉ (RAGSystem.ragTokens "abd").map RAGSystem.bucketOf) ∧
    RAGSystem.cosineSim (RAGSystem.generateSimpleEmbedding "abc")
      (RAGSystem.generateSimpleEmbedding "abd") = 0 :=
  ⟨by decide, C4_disjoint_buckets_cosine_zero "abc" "abd" (by decide)⟩

end Archiwiki
